import Mathlib

/-!
# fm350-util: AT-command reply decoding

A shallow embedding of `src/main.go`.  Go strings are modelled as lists of
characters (`Str`); the modem dialect is ASCII, where byte offsets and character
offsets coincide.  Go `int` is the 64-bit signed integer, modelled as `Int` with
explicit wrap-around (`wrap64`) where the source does arithmetic on it.
-/

namespace FM350

/-- Go `string`, as the list of its characters. -/
abbrev Str := List Char

/-! ## Standard-library helpers used by the source -/

/-- Go `strings.HasPrefix`. -/
def HasPrefix : Str → Str → Bool
  | _, [] => true
  | [], _ :: _ => false
  | c :: s, d :: p => c == d && HasPrefix s p

/-- Go `strings.Split(s, sep)` for a one-character separator (every call site
of the source passes `","`, `"."` or `"\n"`). -/
def Split (sep : Char) : Str → List Str
  | [] => [[]]
  | c :: cs =>
    if c = sep then [] :: Split sep cs
    else
      match Split sep cs with
      | [] => [[c]]
      | p :: ps => (c :: p) :: ps

/-- Go `strings.Join(xs, sep)` for a one-character separator. -/
def joinWith (sep : Char) : List Str → Str
  | [] => []
  | [x] => x
  | x :: y :: r => x ++ sep :: joinWith sep (y :: r)

/-- Go `strings.TrimFunc(s, f)`: drops the leading and the trailing run of
characters that satisfy `f`. -/
def TrimFunc (f : Char → Bool) (s : Str) : Str :=
  ((s.dropWhile f).reverse.dropWhile f).reverse

/-- Go `strings.Trim(s, cutset)` for a one-character cutset. -/
def Trim (cut : Char) (s : Str) : Str := TrimFunc (fun c => c == cut) s

/-- Go `strings.Contains`. -/
def Contains (s sub : Str) : Bool := decide (sub <:+: s)

/-- Two-complement wrap-around of Go's 64-bit `int`. -/
def wrap64 (z : Int) : Int := (z + 2 ^ 63) % 2 ^ 64 - 2 ^ 63

/-- The value of a decimal digit character, if it is one. -/
def digitVal (c : Char) : Option Nat :=
  if '0' ≤ c ∧ c ≤ '9' then some (c.toNat - '0'.toNat) else none

/-- Result of `strconv.ParseUint(s, 10, 64)`: a value, a syntax error, or a
range error. -/
inductive UintResult where
  | value (n : Nat)
  | syntaxErr
  | rangeErr
  deriving DecidableEq, Repr

/-- The digit loop of `strconv.ParseUint` in base 10 with 64 bits: a character
that is no digit is a syntax error; an overflow is reported as soon as it is
met, before the rest of the string is looked at. -/
def parseUintLoop : Str → Nat → UintResult
  | [], n => .value n
  | c :: cs, n =>
    match digitVal c with
    | none => .syntaxErr
    | some d =>
      if 1844674407370955162 ≤ n then .rangeErr
      else if 2 ^ 64 - 1 < n * 10 + d then .rangeErr
      else parseUintLoop cs (n * 10 + d)

/-- Go `strconv.ParseUint(s, 10, 64)`. -/
def ParseUint (s : Str) : UintResult :=
  if s = [] then .syntaxErr else parseUintLoop s 0

/-- The source's `atoi`: `strconv.Atoi` with the error dropped.  A syntax error
gives 0; a range error gives the nearest bound of the 64-bit `int`. -/
def atoi (s : Str) : Int :=
  match s with
  | [] => 0
  | c :: cs =>
    let neg := c = '-'
    let body := if c = '+' ∨ c = '-' then cs else s
    match ParseUint body with
    | .syntaxErr => 0
    | .rangeErr => if neg then -(2 ^ 63) else 2 ^ 63 - 1
    | .value un =>
      if ¬ neg ∧ 2 ^ 63 ≤ un then 2 ^ 63 - 1
      else if neg ∧ 2 ^ 63 < un then -(2 ^ 63)
      else if neg then -(un : Int) else (un : Int)

/-- The decimal digit character of a number below ten. -/
def digitChar (d : Nat) : Char := Char.ofNat ('0'.toNat + d)

/-- Decimal digits of a natural number, most significant first, with fuel. -/
def natDigitsFuel : Nat → Nat → Str → Str
  | 0, _, acc => acc
  | fuel + 1, n, acc =>
    if n < 10 then digitChar n :: acc
    else natDigitsFuel fuel (n / 10) (digitChar (n % 10) :: acc)

/-- Decimal rendering of a natural number (`strconv.FormatUint(n, 10)`). -/
def natDigits (n : Nat) : Str := natDigitsFuel (n + 1) n []

/-- Go `fmt.Sprintf("%d", z)` / `strconv.Itoa`. -/
def itoa (z : Int) : Str :=
  if z < 0 then '-' :: natDigits z.natAbs else natDigits z.natAbs

/-- The lowercase hexadecimal digit character of a number below sixteen. -/
def hexChar (d : Nat) : Char :=
  if d < 10 then Char.ofNat ('0'.toNat + d) else Char.ofNat ('a'.toNat + (d - 10))

/-- Lowercase hexadecimal digits of a natural number, most significant first,
with fuel. -/
def natHexFuel : Nat → Nat → Str → Str
  | 0, _, acc => acc
  | fuel + 1, n, acc =>
    if n < 16 then hexChar n :: acc
    else natHexFuel fuel (n / 16) (hexChar (n % 16) :: acc)

/-- Lowercase hexadecimal rendering of a natural number. -/
def natHex (n : Nat) : Str := natHexFuel (n + 1) n []

/-- Go `fmt.Sprintf("%02x", z)` for an `int`: the hexadecimal digits of the
magnitude, zero-padded so that digits and sign together fill two columns. -/
def fmt02x (z : Int) : Str :=
  if z < 0 then '-' :: natHex z.natAbs
  else if z < 16 then '0' :: natHex z.natAbs
  else natHex z.natAbs

/-- The two-digit lowercase hexadecimal text of a byte value, high digit first:
the text the address claims name, to be compared with `fmt02x`. -/
def hexByte (b : Nat) : Str := [hexChar (b / 16), hexChar (b % 16)]

/-- The eight groups the address claim names for the sixteen byte values `bs`:
the `k`-th group is the two-digit hex of byte `2k` followed by that of byte
`2k+1`. -/
def ipv6Groups (bs : List Nat) : List Str :=
  (List.range 8).map fun k => hexByte (bs.getD (2 * k) 0) ++ hexByte (bs.getD (2 * k + 1) 0)

/-! ## Address tokens -/

/-- The loop of the source's `asIpAddr` over the tokens from index `i` on. -/
def ipv6Loop : List Str → Nat → Str → Str
  | [], _, ipv6 => ipv6
  | token :: rest, i, ipv6 =>
    let ipv6 := if i > 0 ∧ i % 2 = 0 then ipv6 ++ ":".toList else ipv6
    ipv6Loop rest (i + 1) (ipv6 ++ fmt02x (atoi token))

/-- The source's `asIpAddr`. -/
def asIpAddr (badip : Str) (masked : Bool) : Str :=
  let badip := Trim '"' badip
  let tokens := Split '.' badip
  if tokens.length = 4 then
    if masked then badip ++ "/24".toList else badip
  else
    let ipv6 := ipv6Loop tokens 0 []
    if masked then ipv6 ++ "/64".toList else ipv6

/-! ## Band labels -/

/-- The source's `bandAsString`. -/
def bandAsString (sband : Str) : Str :=
  let band := atoi sband
  if band ≥ 1 ∧ band ≤ 10 then "UMTS_".toList ++ itoa band
  else if band ≥ 101 ∧ band ≤ 171 then "LTE_".toList ++ itoa (band - 100)
  else if band ≥ 501 ∧ band ≤ 509 then "NR_".toList ++ itoa (band - 500)
  else if band ≥ 5010 ∧ band ≤ 5099 then "NR_".toList ++ itoa (band - 5000)
  else if band ≥ 50100 ∧ band ≤ 50512 then "NR_".toList ++ itoa (band - 50000)
  else itoa band

/-- Saturation of an integer to the range of the 64-bit `int`. -/
def clamp64 (z : Int) : Int :=
  if 2 ^ 63 ≤ z then 2 ^ 63 - 1 else if z < -(2 ^ 63) then -(2 ^ 63) else z

/-! ## float32

A finite `float32` is modelled as the rational number it denotes.  Every
arithmetic step of the source is the exact operation followed by `f32round`. -/

/-- Go `float32`, as the rational it denotes. -/
abbrev F32 := ℚ

/-- Round a rational to the nearest integer, ties to the even one. -/
def roundHalfEven (y : ℚ) : ℤ :=
  if y - ⌊y⌋ < 1 / 2 then ⌊y⌋
  else if 1 / 2 < y - ⌊y⌋ then ⌊y⌋ + 1
  else if ⌊y⌋ % 2 = 0 then ⌊y⌋ else ⌊y⌋ + 1

/-- IEEE-754 binary32 rounding (round to nearest, ties to even) of a rational of
magnitude below `2 ^ 128`: 24 significant bits, exponents from `-126`.  Every
value the source computes comes from a 64-bit `int`, so stays in that range. -/
def f32round (x : ℚ) : F32 :=
  if x = 0 then 0
  else
    let t : ℤ := max (Int.log 2 |x|) (-126) - 23
    (roundHalfEven (x / (2 : ℚ) ^ t) : ℚ) * (2 : ℚ) ^ t

/-- The source's `atof`: `float32(d)` of the `strconv.Atoi` result, error
dropped. -/
def atof (s : Str) : F32 := f32round (atoi s : ℚ)

/-! ## Command channel -/

/-- What one `port.Read` call delivers: the bytes received before the timeout
(possibly none), or a transport error. -/
inductive ReadResult where
  | data (bytes : Str)
  | fault
  deriving DecidableEq

/-- An address of a network interface: the bytes of `addr.IP`. -/
abbrev Addr := List Nat

/-- The source's `Sms`. -/
structure Sms where
  SrcPhone : Str
  Message : Str
  deriving DecidableEq

/-- Effects the program has on its environment, in the order they happen:
serial writes, sleeps, netlink calls, and what is shown to the user.  A line
of `fmt.Println` is `printed`, a plain line of `log` is `logged`; output that
carries a float or is marshalled to JSON is kept as the value it shows
(`tempLine` for `log.Printf("%-13s %.3f\n", ...)`, `tempJson`, `bandsJson`,
`smsJson` for `json.Marshal`, where a nil `*Sms` is `none`, printed `null`). -/
inductive Event where
  | wrote (bytes : Str)
  | slept (seconds : Nat)
  | linkDown (netdev : Str)
  | linkUp (netdev : Str)
  | addrDel (netdev : Str) (addr : Addr)
  | addrAdd (netdev : Str) (addr : Addr)
  | printed (line : Str)
  | logged (line : Str)
  | badResponse (line : Str)
  | badIndex (index : Int) (line : Str)
  | tempLine (sensor : Str) (temp : F32)
  | tempJson (obj : List (Str × F32))
  | bandsJson (rat pref1 pref2 : Str) (bands : List Str)
  | smsJson (messages : List (Option Sms))
  deriving DecidableEq

/-- The environment of one run: what the successive reads of the serial port
will deliver, the effects so far, and the host's network interfaces with their
addresses. -/
structure World where
  pending : List ReadResult
  trace : List Event
  links : List (Str × List Addr)
  deriving DecidableEq

/-- How a call ends: it returns a value, the process exits through
`log.Fatal`, or the Go runtime panics (index or slice out of range, nil
dereference). -/
inductive Outcome (α : Type) where
  | ok (a : α) (w : World)
  | fatal (msg : Str) (w : World)
  | panic (w : World)
  deriving DecidableEq

/-- A computation of the source: a function of the environment. -/
def M (α : Type) : Type := World → Outcome α

/-- Sequencing: a fatal exit or a panic ends the run. -/
def M.bind {α β : Type} (x : M α) (f : α → M β) : M β := fun w =>
  match x w with
  | .ok a w1 => f a w1
  | .fatal msg w1 => .fatal msg w1
  | .panic w1 => .panic w1

instance : Monad M where
  pure a := fun w => .ok a w
  bind := M.bind

/-- Go `log.Fatal(msg)`. -/
def logFatal {α : Type} (msg : Str) : M α := fun w => .fatal msg w

/-- A run-time panic of the Go runtime. -/
def goPanic {α : Type} : M α := fun w => .panic w

/-- Append an effect to the trace. -/
def emit (e : Event) : M Unit := fun w => .ok () { w with trace := w.trace ++ [e] }

/-- Go index expression `xs[i]`: panics when `i` is out of range. -/
def elemAt {α : Type} (xs : List α) (i : Nat) : M α :=
  match xs.get? i with
  | some x => pure x
  | none => goPanic

/-- Go slice expression `s[n:]`: panics when `n` exceeds the length. -/
def sliceFrom (s : Str) (n : Nat) : M Str :=
  if n ≤ s.length then pure (s.drop n) else goPanic

/-- Go `unicode.IsSpace`. -/
def isSpace (c : Char) : Bool :=
  c = '\t' ∨ c = '\n' ∨ c = '\x0b' ∨ c = '\x0c' ∨ c = '\r' ∨ c = ' ' ∨
  c = '\u0085' ∨ c = '\u00a0' ∨ c = '\u1680' ∨ ('\u2000' ≤ c ∧ c ≤ '\u200a') ∨
  c = '\u2028' ∨ c = '\u2029' ∨ c = '\u202f' ∨ c = '\u205f' ∨ c = '\u3000'

/-- Go `strings.TrimSpace`. -/
def TrimSpace (s : Str) : Str := TrimFunc isSpace s

/-- Membership in the class `[\r\n]`. -/
def isCrNl (c : Char) : Bool := c = '\r' ∨ c = '\n'

/-- The source's `match_crnl.ReplaceAllString(value, "\n")`: every maximal run
of carriage returns and line feeds becomes one line feed (a character of the
class is written out, as a line feed, only when it ends its run). -/
def collapseCrNl : Str → Str
  | [] => []
  | [c] => if isCrNl c then ['\n'] else [c]
  | c :: d :: cs =>
    if isCrNl c then
      if isCrNl d then collapseCrNl (d :: cs) else '\n' :: collapseCrNl (d :: cs)
    else c :: collapseCrNl (d :: cs)

/-- A match of the source's `match_ok` (the pattern `\n+OK`) anchored at the
head of the string: the run of line feeds there, which is not empty, followed
by `OK`.  Returns what follows the match. -/
def matchOk (s : Str) : Option Str :=
  match s with
  | [] => none
  | c :: cs =>
    if c = '\n' then
      match cs.dropWhile (fun d => d == '\n') with
      | o :: k :: tl => if o = 'O' ∧ k = 'K' then some tl else none
      | _ => none
    else none

/-- Leftmost, non-overlapping replacement of every `match_ok` match by the
empty string, with fuel (one unit per position looked at). -/
def replaceOkFuel : Nat → Str → Str
  | 0, s => s
  | _ + 1, [] => []
  | fuel + 1, c :: cs =>
    match matchOk (c :: cs) with
    | some rest => replaceOkFuel fuel rest
    | none => c :: replaceOkFuel fuel cs

/-- The source's `match_ok.ReplaceAllString(res, "")`. -/
def replaceOk (s : Str) : Str := replaceOkFuel s.length s

/-- Whether two line feeds follow one another somewhere in the string. -/
def hasDoubleNl : Str → Bool
  | [] => false
  | [_] => false
  | c :: d :: cs => (c == '\n' && d == '\n') || hasDoubleNl (d :: cs)

/-- The source's `Modem.read`. -/
def read : M Str := fun w =>
  match w.pending with
  | [] => .ok [] w
  | .fault :: rest => .fatal "Serial: failed to read:".toList { w with pending := rest }
  | .data bytes :: rest =>
    .ok (collapseCrNl (TrimSpace (bytes.take 2048))) { w with pending := rest }

/-- The source's `Modem.write` (the write itself is taken to succeed). -/
def write (value : Str) : M Unit := emit (.wrote value)

/-- The source's `Modem.send`. -/
def send (command : Str) (keepOk : Bool) : M Str := do
  write (command ++ "\r\n".toList)
  let res ← read
  let res :=
    if !keepOk then
      if res = "OK".toList then [] else replaceOk res
    else res
  if HasPrefix res "ERROR".toList then logFatal res else pure res

/-- The source's `Modem.sendex`. -/
def sendex (command expect : Str) (keepOk : Bool) : M Str := do
  let res ← send command keepOk
  if HasPrefix res expect then sliceFrom res expect.length else pure res

/-! ## Signal -/

/-- The source's `Signal`. -/
structure Signal where
  SsRsrq : F32
  SsRsrp : Int
  SsRinr : F32

/-- The source's `Modem.SignalInfo`. -/
def SignalInfo : M Signal := do
  let res ← send "AT+CESQ".toList false
  if !HasPrefix res "+CESQ: ".toList then return ⟨0, 0, 0⟩
  let info := Split ',' (← sliceFrom res 7)
  if info.length ≠ 9 then return ⟨0, 0, 0⟩
  let q ← elemAt info 6
  let q := atof q
  let q := if q < 128 then f32round (f32round (q * (1 / 2)) + (-43)) else 0
  let p ← elemAt info 7
  let p := atoi p
  let p := if p < 128 then wrap64 (p + (-156)) else 0
  let s ← elemAt info 8
  let s := atof s
  let s := if s < 128 then f32round (f32round (s * (1 / 2)) + (-23)) else 0
  return ⟨q, p, s⟩

/-! ## Modem session and network interface -/

/-- The source's `Modem`; its serial port is part of the `World`. -/
structure Modem where
  cid : Int

/-- Go `time.Sleep`, in seconds. -/
def sleep (seconds : Nat) : M Unit := emit (.slept seconds)

/-- The source's `Modem.IsConnected`. -/
def IsConnected (m : Modem) : M Bool := do
  let res ← send ("AT+CGPADDR=".toList ++ itoa m.cid) false
  return !Contains res "ERROR".toList

/-- The source's `Modem.SetContext`. -/
def SetContext (m : Modem) (enable : Bool) : M Unit := do
  let state : Int := if enable then 1 else 0
  let command := "AT+CGACT=".toList ++ itoa state ++ ",".toList ++ itoa m.cid
  let _ ← send command true
  sleep 5

/-- `netlink.LinkByName`: the link is known by its name; the lookup fails
(`none`) for a name the host does not have. -/
def LinkByName (netdev : Str) : M (Option Str) := fun w =>
  match w.links.lookup netdev with
  | some _ => .ok (some netdev) w
  | none => .ok none w

/-- `netlink.AddrList`, `none` on an error. -/
def AddrList (link : Str) : M (Option (List Addr)) := fun w =>
  .ok (w.links.lookup link) w

/-- `netlink.AddrDel`. -/
def AddrDel (link : Str) (addr : Addr) : M Unit := fun w =>
  .ok () { w with
    trace := w.trace ++ [.addrDel link addr]
    links := w.links.map fun e => if e.1 = link then (e.1, e.2.erase addr) else e }

/-- `netlink.AddrAdd` (taken to succeed). -/
def AddrAdd (link : Str) (addr : Addr) : M Unit := fun w =>
  .ok () { w with
    trace := w.trace ++ [.addrAdd link addr]
    links := w.links.map fun e => if e.1 = link then (e.1, e.2 ++ [addr]) else e }

/-- The loop of the source's `FlushNetDev`. -/
def flushLoop (link : Str) : List Addr → M Unit
  | [] => pure ()
  | addr :: rest => do
    if addr.length ≠ 4 then flushLoop link rest
    else
      AddrDel link addr
      flushLoop link rest

/-- The source's `Modem.FlushNetDev`. -/
def FlushNetDev (link : Str) : M Unit := do
  emit (.linkDown link)
  match ← AddrList link with
  | none => logFatal "failed flush netdev:".toList
  | some addrs => flushLoop link addrs

/-- Go `IP.To4() != nil`: a 4-byte address, or a 16-byte one in the
IPv4-mapped form. -/
def isTo4 (a : Addr) : Bool :=
  a.length = 4 ∨ (a.length = 16 ∧ a.take 12 = [0, 0, 0, 0, 0, 0, 0, 0, 0, 0, 255, 255])

/-- The loop of the source's `SetupNetDev` over the tokens from index `i` on;
`parseAddr` is the external `netlink.ParseAddr`. -/
def setupLoop (parseAddr : Str → Option Addr) (netdev : Str) : List Str → Nat → M Unit
  | [], _ => pure ()
  | tok :: rest, i => do
    if i < 1 then setupLoop parseAddr netdev rest (i + 1)
    else
      let ip := asIpAddr tok true
      match parseAddr ip with
      | none =>
        emit (.logged ("failed to parse ".toList ++ ip))
        setupLoop parseAddr netdev rest (i + 1)
      | some addr =>
        if !isTo4 addr then setupLoop parseAddr netdev rest (i + 1)
        else
          AddrAdd netdev addr
          emit (.logged (netdev ++ " now has ip ".toList ++ ip))
          setupLoop parseAddr netdev rest (i + 1)

/-- The source's `Modem.SetupNetDev`. -/
def SetupNetDev (parseAddr : Str → Option Addr) (m : Modem) (link : Str) : M Unit := do
  let netdev := link
  let res ← send ("AT+CGPADDR=".toList ++ itoa m.cid) false
  if !HasPrefix res "+CGPADDR: ".toList then
    logFatal "Failed to get local net configuration.".toList
  else
    emit (.logged ("Connecting the modem to the network via ".toList ++ netdev
      ++ " device.".toList))
    let tokens := Split ',' (← sliceFrom res 10)
    setupLoop parseAddr netdev tokens 0
    emit (.linkUp link)

/-- The source's `Modem.Connect`.  The two conditions after `SetContext`,
`enable && !m.IsConnected()` and `!enable && m.IsConnected()`, are written with
Go's short-circuit evaluation made explicit: one status query is made, whatever
`enable` is. -/
def Connect (parseAddr : Str → Option Addr) (m : Modem) (netdev : Str) (enable : Bool) :
    M Unit := do
  match ← LinkByName netdev with
  | none => logFatal ("failed to get netdev ".toList ++ netdev ++ ":".toList)
  | some net =>
    if !(← IsConnected m) then
      SetContext m enable
      if enable then
        if !(← IsConnected m) then logFatal "Failed to connect.".toList
      else
        if (← IsConnected m) then logFatal "Failed to disconnect.".toList
    FlushNetDev net
    if enable then SetupNetDev parseAddr m net

/-- The `disconnect` branch of the source's `main`. -/
def mainDisconnect (parseAddr : Str → Option Addr) (m : Modem) (netdev : Str) : M Unit := do
  if !(← IsConnected m) then
    logFatal "Modem already disconnected.".toList
  else
    Connect parseAddr m netdev false

/-! ## DNS -/

/-- The inner loop of the source's `DNS` over the fields from index `i` on. -/
def dnsInfoLoop : List Str → Nat → List Str → List Str
  | [], _, dns => dns
  | ip :: rest, i, dns =>
    if i < 1 then dnsInfoLoop rest (i + 1) dns
    else dnsInfoLoop rest (i + 1) (dns ++ [asIpAddr ip false])

/-- The outer loop of the source's `DNS`. -/
def dnsLoop : List Str → List Str → M (List Str)
  | [], dns => pure dns
  | line :: rest, dns => do
    let info := Split ',' (← sliceFrom line 12)
    dnsLoop rest (dnsInfoLoop info 0 dns)

/-- The source's `Modem.DNS`. -/
def DNS (m : Modem) : M (List Str) := do
  let res ← send ("AT+GTDNS=".toList ++ itoa m.cid) false
  if !HasPrefix res "+GTDNS: ".toList then return []
  dnsLoop (Split '\n' res) []

/-! ## Bands -/

/-- The source's `ratAsString`. -/
def ratAsString (rat : Str) : Str :=
  let irat := atoi rat
  if irat = 1 then "UMTS (1)".toList
  else if irat = 2 then "LTE (2)".toList
  else if irat = 4 then "LTE/UMTS (4)".toList
  else if irat = 10 then "Automatic (10)".toList
  else if irat = 14 then "NR-RAN (14)".toList
  else if irat = 16 then "NR-RAN/WCDMA (16)".toList
  else if irat = 17 then "NR-RAN/LTE (17)".toList
  else if irat = 20 then "NR-RAN/WCDMA/LTE (20)".toList
  else "Unknown (".toList ++ itoa irat ++ ")".toList

/-- The source's `preferredActAsString`. -/
def preferredActAsString (preferred : Str) : Str :=
  let iPrefAct := atoi preferred
  if iPrefAct = 2 then "WCDMA (2)".toList
  else if iPrefAct = 3 then "LTE (3)".toList
  else if iPrefAct = 6 then "NR-RAN (6)".toList
  else "Unknown (".toList ++ itoa iPrefAct ++ ")".toList

/-- The loop of the source's `ModemBands` over the fields from index `i` on. -/
def bandsLoop : List Str → Nat → List Str → List Str
  | [], _, bnds => bnds
  | band :: rest, i, bnds =>
    if i < 3 then bandsLoop rest (i + 1) bnds
    else bandsLoop rest (i + 1) (bnds ++ [bandAsString band])

/-- The source's `Modem.ModemBands`. -/
def ModemBands (asJson : Bool) : M Unit := do
  let bands := Split ',' (← sendex "AT+GTACT?".toList "+GTACT: ".toList false)
  let rat := ratAsString (← elemAt bands 0)
  let pref1 := preferredActAsString (← elemAt bands 1)
  let pref2 := preferredActAsString (← elemAt bands 2)
  if !asJson then
    emit (.logged ("RAT: ".toList ++ rat))
    emit (.logged ("Preferred Act 1: ".toList ++ pref1))
    emit (.logged ("Preferred Act 2: ".toList ++ pref2))
  let bnds := bandsLoop bands 0 []
  if asJson then emit (.bandsJson rat pref1 pref2 bnds)
  else emit (.logged ("Bands: [".toList ++ joinWith ' ' bnds ++ "]".toList))

/-! ## Temperature -/

/-- The source's `sensors`. -/
def sensors : List Str :=
  ["soc_max".toList, "cpu_little0".toList, "cpu_little1".toList, "cpu_little2".toList,
    "cpu_little3".toList, "gpu0".toList, "gpu1".toList, "dramc".toList, "mmsys".toList,
    "md_5g".toList, "md_4g".toList, "md_3g".toList, "soc_dram_ntc".toList,
    "ltepa_ntc".toList, "nrpa_ntc".toList, "rf_ntc".toList, "md_rf".toList,
    "conn_gps".toList, "pmic".toList, "pmic_vcore".toList, "pmic_vproc".toList,
    "pmic_vgpu".toList, "unknown".toList]

/-- Go map assignment `obj[k] = v`, on a map kept as an association list. -/
def mapSet (obj : List (Str × F32)) (k : Str) (v : F32) : List (Str × F32) :=
  if obj.any (fun e => e.1 = k) then obj.map (fun e => if e.1 = k then (k, v) else e)
  else obj ++ [(k, v)]

/-- Go map lookup `obj[k]` with its presence flag. -/
def mapGet (obj : List (Str × F32)) (k : Str) : Option F32 := obj.lookup k

/-- The body of the loop of the source's `ModemTemperature`, for one line. -/
def temperatureLine (asJson : Bool) (obj : List (Str × F32)) (line : Str) :
    M (List (Str × F32)) := do
  let line := TrimSpace line
  if !HasPrefix line "+GTSENRDTEMP: ".toList then
    if !asJson then emit (.badResponse line)
    return obj
  let toks := Split ',' (← sliceFrom line 14)
  let index := wrap64 (atoi (← elemAt toks 0) - 1)
  if index < 0 ∨ index ≥ sensors.length then
    if !asJson then emit (.badIndex index line)
    return obj
  let temp := f32round (atof (← elemAt toks 1) / 1000)
  let sensor ← elemAt sensors index.toNat
  if asJson then return mapSet obj sensor temp
  else
    emit (.tempLine sensor temp)
    return obj

/-- The loop of the source's `ModemTemperature`. -/
def temperatureLoop (asJson : Bool) : List Str → List (Str × F32) → M (List (Str × F32))
  | [], obj => pure obj
  | line :: rest, obj => do
    let obj ← temperatureLine asJson obj line
    temperatureLoop asJson rest obj

/-- The source's `Modem.ModemTemperature`. -/
def ModemTemperature (asJson : Bool) : M Unit := do
  let lines := Split '\n' (← send "AT+GTSENRDTEMP=0".toList false)
  let obj ← temperatureLoop asJson lines []
  if asJson then emit (.tempJson obj)

/-! ## SMS -/

/-- The value of a hexadecimal digit character, either case. -/
def hexVal (c : Char) : Option Nat :=
  if '0' ≤ c ∧ c ≤ '9' then some (c.toNat - '0'.toNat)
  else if 'a' ≤ c ∧ c ≤ 'f' then some (c.toNat - 'a'.toNat + 10)
  else if 'A' ≤ c ∧ c ≤ 'F' then some (c.toNat - 'A'.toNat + 10)
  else none

/-- Go `hex.DecodeString`, `none` on an error. -/
def hexDecode : Str → Option (List Nat)
  | [] => some []
  | [_] => none
  | a :: b :: rest =>
    match hexVal a, hexVal b, hexDecode rest with
    | some hi, some lo, some bytes => some ((hi * 16 + lo) :: bytes)
    | _, _, _ => none

/-- The source's `decodeSms`, a nil result being `none`.  The external SMS codec
(`pdumode.UnmarshalBinary`, `sms.Unmarshal`, `sms.Decode`) is the function
`codec` from the decoded bytes; the log lines written on a failure are left
out. -/
def decodeSms (codec : List Nat → Option Sms) (hexstr : Str) : Option Sms :=
  match hexDecode hexstr with
  | none => none
  | some data => codec data

/-- The loop of the source's `SmsList`. -/
def smsLoop (codec : List Nat → Option Sms) (asJson : Bool) :
    List Str → List (Option Sms) → M (List (Option Sms))
  | [], messages => pure messages
  | line :: rest, messages =>
    if HasPrefix line "+CMGL:".toList then smsLoop codec asJson rest messages
    else
      let sms := decodeSms codec line
      if asJson then smsLoop codec asJson rest (messages ++ [sms])
      else
        match sms with
        | none => goPanic
        | some v => do
          emit (.printed (v.SrcPhone ++ " ".toList ++ v.Message))
          smsLoop codec asJson rest messages

/-- The source's `Modem.SmsList`. -/
def SmsList (codec : List Nat → Option Sms) (asJson : Bool) : M Unit := do
  let res ← send "AT+CMGL=4".toList false
  if !HasPrefix res "+CMGL: ".toList then return ()
  let messages ← smsLoop codec asJson (Split '\n' res) []
  if asJson then emit (.smsJson messages)

/-! ## Lemmas on the numeric conversions -/

theorem digitVal_digitChar (d : Nat) (h : d < 10) : digitVal (digitChar d) = some d := by
  interval_cases d <;> rfl

theorem digitChar_ne_sign (d : Nat) (h : d < 10) :
    digitChar d ≠ '+' ∧ digitChar d ≠ '-' := by
  interval_cases d <;> decide

theorem natDigitsFuel_eq (n : Nat) :
    ∀ fuel acc, n < fuel → natDigitsFuel fuel n acc = natDigits n ++ acc := by
  induction n using Nat.strong_induction_on with
  | _ n ih =>
    intro fuel acc hf
    obtain ⟨f, rfl⟩ : ∃ f, fuel = f + 1 := ⟨fuel - 1, by omega⟩
    by_cases h : n < 10
    · simp [natDigits, natDigitsFuel, h]
    · have hlt : n / 10 < n := by omega
      have h1 : natDigitsFuel (f + 1) n acc
          = natDigitsFuel f (n / 10) (digitChar (n % 10) :: acc) := by
        simp [natDigitsFuel, h]
      have h2 : natDigits n = natDigitsFuel n (n / 10) [digitChar (n % 10)] := by
        simp [natDigits, natDigitsFuel, h]
      rw [h1, h2, ih (n / 10) hlt f _ (by omega), ih (n / 10) hlt n _ hlt]
      simp

theorem natDigits_small (n : Nat) (h : n < 10) : natDigits n = [digitChar n] := by
  simp [natDigits, natDigitsFuel, h]

theorem natDigits_step (n : Nat) (h : 10 ≤ n) :
    natDigits n = natDigits (n / 10) ++ [digitChar (n % 10)] := by
  have hlt : n / 10 < n := by omega
  have h2 : natDigits n = natDigitsFuel n (n / 10) [digitChar (n % 10)] := by
    simp [natDigits, natDigitsFuel, Nat.not_lt.mpr h]
  rw [h2, natDigitsFuel_eq (n / 10) n _ hlt]

theorem natDigits_ne_nil (n : Nat) : natDigits n ≠ [] := by
  by_cases h : n < 10
  · simp [natDigits_small n h]
  · rw [natDigits_step n (by omega)]; simp

theorem natDigits_head (n : Nat) :
    ∃ d cs, d < 10 ∧ natDigits n = digitChar d :: cs := by
  induction n using Nat.strong_induction_on with
  | _ n ih =>
    by_cases h : n < 10
    · exact ⟨n, [], h, natDigits_small n h⟩
    · obtain ⟨d, cs, hd, hcs⟩ := ih (n / 10) (by omega)
      exact ⟨d, cs ++ [digitChar (n % 10)], hd, by
        rw [natDigits_step n (by omega), hcs]; rfl⟩

theorem parseUintLoop_append (xs ys : Str) :
    ∀ a, parseUintLoop (xs ++ ys) a =
      match parseUintLoop xs a with
      | .value b => parseUintLoop ys b
      | e => e := by
  induction xs with
  | nil => intro a; simp [parseUintLoop]
  | cons c cs ih =>
    intro a
    simp only [List.cons_append, parseUintLoop]
    cases digitVal c with
    | none => rfl
    | some d =>
      simp only
      split_ifs
      · rfl
      · rfl
      · exact ih _

theorem parseUintLoop_natDigits (n : Nat) :
    parseUintLoop (natDigits n) 0 = if n < 2 ^ 64 then .value n else .rangeErr := by
  induction n using Nat.strong_induction_on with
  | _ n ih =>
    by_cases h : n < 10
    · have h64 : n < 2 ^ 64 := by omega
      have hc : ¬ (2 ^ 64 - 1 < n) := by omega
      simp only [natDigits_small n h, parseUintLoop, digitVal_digitChar n h, h64]
      norm_num
      omega
    · rw [natDigits_step n (by omega), parseUintLoop_append, ih (n / 10) (by omega)]
      by_cases hq : n / 10 < 2 ^ 64
      · simp only [hq, if_true, parseUintLoop, digitVal_digitChar (n % 10) (by omega)]
        have hn : n / 10 * 10 + n % 10 = n := by omega
        rw [hn]
        split_ifs <;> first | rfl | omega
      · have : ¬ n < 2 ^ 64 := by omega
        simp only [hq, this, if_false]

theorem atoi_natDigits (n : Nat) :
    atoi (natDigits n) = if 2 ^ 63 ≤ n then 2 ^ 63 - 1 else (n : Int) := by
  obtain ⟨d, cs, hd, hcs⟩ := natDigits_head n
  have hs := digitChar_ne_sign d hd
  have hne := natDigits_ne_nil n
  have hp := parseUintLoop_natDigits n
  rw [hcs] at hne hp ⊢
  simp only [atoi, hs.1, hs.2, or_self, if_false, ParseUint, hne, hp]
  by_cases h64 : n < 2 ^ 64
  · simp only [h64, if_true]
    by_cases h63 : 2 ^ 63 ≤ n
    · simp [h63]
    · simp [h63]
  · have h63 : (9223372036854775808 : Nat) ≤ n := by omega
    have h64b : ¬ n < 18446744073709551616 := by omega
    simp [h64b, h63]

theorem atoi_neg_natDigits (n : Nat) :
    atoi ('-' :: natDigits n) = if 2 ^ 63 < n then -(2 ^ 63) else -(n : Int) := by
  have hne := natDigits_ne_nil n
  have hp := parseUintLoop_natDigits n
  simp only [atoi, or_true, if_true, ParseUint, hne, if_false, hp]
  by_cases h64 : n < 2 ^ 64
  · simp only [h64, if_true]
    by_cases h63 : 2 ^ 63 < n
    · simp [h63]
    · simp [h63]
  · have h63 : (9223372036854775808 : Nat) < n := by omega
    have h64b : ¬ n < 18446744073709551616 := by omega
    simp [h64b, h63]

theorem atoi_itoa (z : Int) : atoi (itoa z) = clamp64 z := by
  by_cases hz : z < 0
  · obtain ⟨n, rfl⟩ : ∃ n : Nat, z = -(n : Int) := ⟨z.natAbs, by omega⟩
    simp only [itoa, hz, if_true, Int.natAbs_neg, Int.natAbs_ofNat, atoi_neg_natDigits]
    unfold clamp64
    split_ifs <;> omega
  · obtain ⟨n, rfl⟩ : ∃ n : Nat, z = (n : Int) := ⟨z.natAbs, by omega⟩
    simp only [itoa, hz, if_false, Int.natAbs_ofNat, atoi_natDigits]
    unfold clamp64
    split_ifs <;> omega

theorem atoi_itoa_of_range (z : Int) (h1 : -(2 ^ 63) ≤ z) (h2 : z < 2 ^ 63) :
    atoi (itoa z) = z := by
  rw [atoi_itoa, clamp64]
  split_ifs <;> omega

/-! ## Lemmas on float32 rounding -/

theorem roundHalfEven_intCast (z : ℤ) : roundHalfEven (z : ℚ) = z := by
  simp [roundHalfEven]

theorem floor_le_roundHalfEven (y : ℚ) : ⌊y⌋ ≤ roundHalfEven y := by
  unfold roundHalfEven
  split_ifs <;> omega

theorem roundHalfEven_le (y : ℚ) : roundHalfEven y ≤ ⌊y⌋ + 1 := by
  unfold roundHalfEven
  split_ifs <;> omega

theorem f32round_exact_lt (m j : ℤ) (hm : |m| < 2 ^ 24) (hj : -149 ≤ j) :
    f32round ((m : ℚ) * (2 : ℚ) ^ j) = (m : ℚ) * (2 : ℚ) ^ j := by
  by_cases h0 : m = 0
  · simp [h0, f32round]
  have h2 : (0 : ℚ) < (2 : ℚ) ^ j := zpow_pos (by norm_num) j
  have hx0 : (m : ℚ) * (2 : ℚ) ^ j ≠ 0 :=
    mul_ne_zero (by exact_mod_cast h0) (ne_of_gt h2)
  have habs : |(m : ℚ) * (2 : ℚ) ^ j| < ((2 : ℕ) : ℚ) ^ (24 + j) := by
    rw [abs_mul, abs_of_pos h2, zpow_add₀ (by norm_num)]
    have : |(m : ℚ)| < 2 ^ 24 := by exact_mod_cast hm
    have h3 := mul_lt_mul_of_pos_right this h2
    have h24 : (2 : ℚ) ^ (24 : ℤ) = 2 ^ 24 := by norm_num
    rw [Nat.cast_ofNat, h24]
    exact h3
  have hlog : Int.log 2 |(m : ℚ) * (2 : ℚ) ^ j| < 24 + j :=
    (Int.lt_zpow_iff_log_lt (by norm_num) (abs_pos.mpr hx0)).1 habs
  have ht : max (Int.log 2 |(m : ℚ) * (2 : ℚ) ^ j|) (-126) - 23 ≤ j := by
    rcases max_cases (Int.log 2 |(m : ℚ) * (2 : ℚ) ^ j|) (-126) with h | h <;> omega
  simp only [f32round, hx0, if_false]
  generalize max (Int.log 2 |(m : ℚ) * (2 : ℚ) ^ j|) (-126) - 23 = t at ht
  obtain ⟨k, rfl⟩ : ∃ k : ℕ, j = t + k := ⟨(j - t).toNat, by omega⟩
  have h2t : (2 : ℚ) ^ t ≠ 0 := ne_of_gt (zpow_pos (by norm_num) t)
  have hq : (m : ℚ) * (2 : ℚ) ^ (t + (k : ℤ)) / (2 : ℚ) ^ t = ((m * 2 ^ k : ℤ) : ℚ) := by
    rw [zpow_add₀ (by norm_num)]
    field_simp
    ring
  rw [hq, roundHalfEven_intCast, zpow_add₀ (by norm_num), zpow_natCast]
  push_cast
  ring

theorem f32round_exact (m j : ℤ) (hm : |m| ≤ 2 ^ 24) (hj : -149 ≤ j) :
    f32round ((m : ℚ) * (2 : ℚ) ^ j) = (m : ℚ) * (2 : ℚ) ^ j := by
  rcases lt_or_eq_of_le hm with h | h
  · exact f32round_exact_lt m j h hj
  · have hm' : m = 2 ^ 24 ∨ m = -(2 ^ 24) := by
      rcases abs_cases m with ⟨h1, _⟩ | ⟨h1, _⟩ <;> omega
    have key : (m : ℚ) * (2 : ℚ) ^ j = ((m / 2 ^ 24 : ℤ) : ℚ) * (2 : ℚ) ^ (24 + j) := by
      rw [zpow_add₀ (by norm_num)]
      rcases hm' with rfl | rfl <;> norm_num
    rw [key]
    apply f32round_exact_lt _ _ _ (by omega)
    rcases hm' with rfl | rfl <;> norm_num

theorem f32round_ge (x : ℚ) (k : ℤ) (hk : -126 ≤ k) (hx : (2 : ℚ) ^ k ≤ x) :
    (2 : ℚ) ^ k ≤ f32round x := by
  have hpos : 0 < x := lt_of_lt_of_le (zpow_pos (by norm_num) k) hx
  have hx0 : x ≠ 0 := ne_of_gt hpos
  have hlog : k ≤ Int.log 2 x :=
    (Int.zpow_le_iff_le_log (by norm_num) hpos).1 (by simpa using hx)
  have hle : ((2 : ℕ) : ℚ) ^ Int.log 2 x ≤ x := Int.zpow_log_le_self (by norm_num) hpos
  simp only [f32round, hx0, if_false, abs_of_pos hpos]
  rw [max_eq_left (by omega)]
  set e := Int.log 2 x with he
  have h2t : (0 : ℚ) < (2 : ℚ) ^ (e - 23) := zpow_pos (by norm_num) _
  have hy : ((2 ^ 23 : ℤ) : ℚ) ≤ x / (2 : ℚ) ^ (e - 23) := by
    rw [le_div_iff₀ h2t]
    have : ((2 ^ 23 : ℤ) : ℚ) * (2 : ℚ) ^ (e - 23) = (2 : ℚ) ^ e := by
      rw [zpow_sub₀ (by norm_num)]
      norm_num
      ring
    rw [this]
    simpa using hle
  have hfl : (2 ^ 23 : ℤ) ≤ roundHalfEven (x / (2 : ℚ) ^ (e - 23)) :=
    le_trans (Int.le_floor.2 hy) (floor_le_roundHalfEven _)
  have hr : ((2 ^ 23 : ℤ) : ℚ) ≤ (roundHalfEven (x / (2 : ℚ) ^ (e - 23)) : ℚ) := by
    exact_mod_cast hfl
  calc (2 : ℚ) ^ k ≤ (2 : ℚ) ^ e := zpow_le_zpow_right₀ (by norm_num) hlog
    _ = ((2 ^ 23 : ℤ) : ℚ) * (2 : ℚ) ^ (e - 23) := by
        rw [zpow_sub₀ (by norm_num)]; norm_num; ring
    _ ≤ _ := mul_le_mul_of_nonneg_right hr (le_of_lt h2t)

/-! ## C2: band labels -/

theorem bandAsString_atoi (s : Str) :
      (1 ≤ atoi s ∧ atoi s ≤ 10 → bandAsString s = "UMTS_".toList ++ itoa (atoi s)) ∧
      (101 ≤ atoi s ∧ atoi s ≤ 171 →
        bandAsString s = "LTE_".toList ++ itoa (atoi s - 100)) ∧
      (501 ≤ atoi s ∧ atoi s ≤ 509 →
        bandAsString s = "NR_".toList ++ itoa (atoi s - 500)) ∧
      (5010 ≤ atoi s ∧ atoi s ≤ 5099 →
        bandAsString s = "NR_".toList ++ itoa (atoi s - 5000)) ∧
      (50100 ≤ atoi s ∧ atoi s ≤ 50512 →
        bandAsString s = "NR_".toList ++ itoa (atoi s - 50000)) ∧
      (¬ (1 ≤ atoi s ∧ atoi s ≤ 10) ∧ ¬ (101 ≤ atoi s ∧ atoi s ≤ 171) ∧
        ¬ (501 ≤ atoi s ∧ atoi s ≤ 509) ∧ ¬ (5010 ≤ atoi s ∧ atoi s ≤ 5099) ∧
        ¬ (50100 ≤ atoi s ∧ atoi s ≤ 50512) → bandAsString s = itoa (atoi s)) := by
  refine ⟨?_, ?_, ?_, ?_, ?_, ?_⟩
  · intro h
    simp only [bandAsString, ge_iff_le, h, and_self, if_true]
  · intro h
    have h1 : ¬ (1 ≤ atoi s ∧ atoi s ≤ 10) := by omega
    simp only [bandAsString, ge_iff_le, h, h1, and_self, if_true, if_false]
  · intro h
    have h1 : ¬ (1 ≤ atoi s ∧ atoi s ≤ 10) := by omega
    have h2 : ¬ (101 ≤ atoi s ∧ atoi s ≤ 171) := by omega
    simp only [bandAsString, ge_iff_le, h, h1, h2, and_self, if_true, if_false]
  · intro h
    have h1 : ¬ (1 ≤ atoi s ∧ atoi s ≤ 10) := by omega
    have h2 : ¬ (101 ≤ atoi s ∧ atoi s ≤ 171) := by omega
    have h3 : ¬ (501 ≤ atoi s ∧ atoi s ≤ 509) := by omega
    simp only [bandAsString, ge_iff_le, h, h1, h2, h3, and_self, if_true, if_false]
  · intro h
    have h1 : ¬ (1 ≤ atoi s ∧ atoi s ≤ 10) := by omega
    have h2 : ¬ (101 ≤ atoi s ∧ atoi s ≤ 171) := by omega
    have h3 : ¬ (501 ≤ atoi s ∧ atoi s ≤ 509) := by omega
    have h4 : ¬ (5010 ≤ atoi s ∧ atoi s ≤ 5099) := by omega
    simp only [bandAsString, ge_iff_le, h, h1, h2, h3, h4, and_self, if_true, if_false]
  · rintro ⟨h1, h2, h3, h4, h5⟩
    simp only [bandAsString, ge_iff_le, h1, h2, h3, h4, h5, if_false]

theorem bandAsString_saturated (c : Int) (h : c < -(2 ^ 63) ∨ 2 ^ 63 ≤ c) :
    bandAsString (itoa c) = itoa (clamp64 c) := by
  have hc : atoi (itoa c) = clamp64 c := atoi_itoa c
  have hb : clamp64 c = 2 ^ 63 - 1 ∨ clamp64 c = -(2 ^ 63) := by
    unfold clamp64
    split_ifs <;> omega
  have h6 := (bandAsString_atoi (itoa c)).2.2.2.2.2
  rw [hc] at h6
  exact h6 (by omega)

/-- C2, as stated, fails: the band code `9223372036854775808` (`2^63`) lies in
none of the five ranges, yet `bandAsString` of its decimal rendering is not
that rendering: `atoi` saturates to the largest 64-bit `int`, so the label is
`9223372036854775807`. -/
theorem bandAsString_counterexample :
    ¬ (∀ c : Int,
      (1 ≤ c ∧ c ≤ 10 → bandAsString (itoa c) = "UMTS_".toList ++ itoa c) ∧
      (101 ≤ c ∧ c ≤ 171 →
        bandAsString (itoa c) = "LTE_".toList ++ itoa (c - 100)) ∧
      (501 ≤ c ∧ c ≤ 509 →
        bandAsString (itoa c) = "NR_".toList ++ itoa (c - 500)) ∧
      (5010 ≤ c ∧ c ≤ 5099 →
        bandAsString (itoa c) = "NR_".toList ++ itoa (c - 5000)) ∧
      (50100 ≤ c ∧ c ≤ 50512 →
        bandAsString (itoa c) = "NR_".toList ++ itoa (c - 50000)) ∧
      (¬ (1 ≤ c ∧ c ≤ 10) ∧ ¬ (101 ≤ c ∧ c ≤ 171) ∧
        ¬ (501 ≤ c ∧ c ≤ 509) ∧ ¬ (5010 ≤ c ∧ c ≤ 5099) ∧
        ¬ (50100 ≤ c ∧ c ≤ 50512) → bandAsString (itoa c) = itoa c)) := by
  intro h
  have h6 := (h (2 ^ 63)).2.2.2.2.2 (by decide)
  rw [bandAsString_saturated (2 ^ 63) (by decide)] at h6
  revert h6
  decide

/-- C2, amended: `bandAsString` maps every integer band code `c` in the range
of the 64-bit `int` (`-2^63 ≤ c < 2^63`), given by its decimal rendering, to its
label by the documented disjoint ranges: 1..10 gives `UMTS_c`, 101..171 gives
`LTE_(c-100)`, 501..509 gives `NR_(c-500)`, 5010..5099 gives `NR_(c-5000)`,
50100..50512 gives `NR_(c-50000)`, every other code gives the decimal rendering
of `c`.  The same holds of any argument `s` for the code `atoi s` the function
reads from it; a code outside the 64-bit range is labelled as the nearest bound
of that range; and the ten boundary codes and the ten codes just outside the
ranges give the labels the claim lists. -/
theorem bandAsString_ranges :
    (∀ c : Int, -(2 ^ 63) ≤ c ∧ c < 2 ^ 63 →
      (1 ≤ c ∧ c ≤ 10 → bandAsString (itoa c) = "UMTS_".toList ++ itoa c) ∧
      (101 ≤ c ∧ c ≤ 171 →
        bandAsString (itoa c) = "LTE_".toList ++ itoa (c - 100)) ∧
      (501 ≤ c ∧ c ≤ 509 →
        bandAsString (itoa c) = "NR_".toList ++ itoa (c - 500)) ∧
      (5010 ≤ c ∧ c ≤ 5099 →
        bandAsString (itoa c) = "NR_".toList ++ itoa (c - 5000)) ∧
      (50100 ≤ c ∧ c ≤ 50512 →
        bandAsString (itoa c) = "NR_".toList ++ itoa (c - 50000)) ∧
      (¬ (1 ≤ c ∧ c ≤ 10) ∧ ¬ (101 ≤ c ∧ c ≤ 171) ∧
        ¬ (501 ≤ c ∧ c ≤ 509) ∧ ¬ (5010 ≤ c ∧ c ≤ 5099) ∧
        ¬ (50100 ≤ c ∧ c ≤ 50512) → bandAsString (itoa c) = itoa c)) ∧
    (∀ s : Str,
      (1 ≤ atoi s ∧ atoi s ≤ 10 → bandAsString s = "UMTS_".toList ++ itoa (atoi s)) ∧
      (101 ≤ atoi s ∧ atoi s ≤ 171 →
        bandAsString s = "LTE_".toList ++ itoa (atoi s - 100)) ∧
      (501 ≤ atoi s ∧ atoi s ≤ 509 →
        bandAsString s = "NR_".toList ++ itoa (atoi s - 500)) ∧
      (5010 ≤ atoi s ∧ atoi s ≤ 5099 →
        bandAsString s = "NR_".toList ++ itoa (atoi s - 5000)) ∧
      (50100 ≤ atoi s ∧ atoi s ≤ 50512 →
        bandAsString s = "NR_".toList ++ itoa (atoi s - 50000)) ∧
      (¬ (1 ≤ atoi s ∧ atoi s ≤ 10) ∧ ¬ (101 ≤ atoi s ∧ atoi s ≤ 171) ∧
        ¬ (501 ≤ atoi s ∧ atoi s ≤ 509) ∧ ¬ (5010 ≤ atoi s ∧ atoi s ≤ 5099) ∧
        ¬ (50100 ≤ atoi s ∧ atoi s ≤ 50512) → bandAsString s = itoa (atoi s))) ∧
    (∀ c : Int, c < -(2 ^ 63) ∨ 2 ^ 63 ≤ c → bandAsString (itoa c) = itoa (clamp64 c)) ∧
    bandAsString "1".toList = "UMTS_1".toList ∧
    bandAsString "10".toList = "UMTS_10".toList ∧
    bandAsString "101".toList = "LTE_1".toList ∧
    bandAsString "171".toList = "LTE_71".toList ∧
    bandAsString "501".toList = "NR_1".toList ∧
    bandAsString "509".toList = "NR_9".toList ∧
    bandAsString "5010".toList = "NR_10".toList ∧
    bandAsString "5099".toList = "NR_99".toList ∧
    bandAsString "50100".toList = "NR_100".toList ∧
    bandAsString "50512".toList = "NR_512".toList ∧
    bandAsString "0".toList = "0".toList ∧
    bandAsString "11".toList = "11".toList ∧
    bandAsString "100".toList = "100".toList ∧
    bandAsString "172".toList = "172".toList ∧
    bandAsString "500".toList = "500".toList ∧
    bandAsString "510".toList = "510".toList ∧
    bandAsString "5009".toList = "5009".toList ∧
    bandAsString "5100".toList = "5100".toList ∧
    bandAsString "50099".toList = "50099".toList ∧
    bandAsString "50513".toList = "50513".toList := by
  refine ⟨fun c hc => ?_, bandAsString_atoi, bandAsString_saturated, ?_⟩
  · have h := bandAsString_atoi (itoa c)
    rw [atoi_itoa_of_range c hc.1 hc.2] at h
    exact h
  · decide

theorem bandAsString_ranges_witness :
    (-(2 ^ 63) ≤ (171 : Int) ∧ (171 : Int) < 2 ^ 63) ∧
    ((101 : Int) ≤ 171 ∧ (171 : Int) ≤ 171) ∧
    bandAsString (itoa 171) = "LTE_".toList ++ itoa (171 - 100) :=
  ⟨by decide, by decide, (bandAsString_ranges.1 171 (by decide)).2.1 (by decide)⟩

theorem HasPrefix_iff (s p : Str) : HasPrefix s p = true ↔ p <+: s := by
  induction p generalizing s with
  | nil => simp [HasPrefix]
  | cons d p ih =>
    cases s with
    | nil => simp [HasPrefix]
    | cons c s =>
      simp only [HasPrefix, Bool.and_eq_true, beq_iff_eq, ih, List.cons_prefix_cons]
      constructor
      · rintro ⟨h1, h2⟩; exact ⟨h1.symm, h2⟩
      · rintro ⟨h1, h2⟩; exact ⟨h1.symm, h2⟩

theorem matchOk_length (s rest : Str) (h : matchOk s = some rest) :
    rest.length < s.length := by
  cases s with
  | nil => simp [matchOk] at h
  | cons c cs =>
    simp only [matchOk] at h
    split_ifs at h with hc
    have hlen := (List.dropWhile_sublist (fun d => d == '\n') (l := cs)).length_le
    split at h
    · rename_i o k tl heq
      split_ifs at h
      cases h
      rw [heq] at hlen
      simp only [List.length_cons] at hlen ⊢
      omega
    · cases h

theorem replaceOkFuel_eq (n : Nat) :
    ∀ (s : Str) (fuel : Nat), s.length = n → n ≤ fuel →
      replaceOkFuel fuel s = replaceOk s := by
  induction n using Nat.strong_induction_on with
  | _ n ih =>
    intro s fuel hs hf
    cases s with
    | nil => cases fuel <;> simp [replaceOk, replaceOkFuel]
    | cons c cs =>
      obtain ⟨f, rfl⟩ : ∃ f, fuel = f + 1 := ⟨fuel - 1, by simp at hs; omega⟩
      simp only [List.length_cons] at hs
      simp only [replaceOk, replaceOkFuel, List.length_cons]
      cases hm : matchOk (c :: cs) with
      | none =>
        simp only
        rw [ih cs.length (by omega) cs f rfl (by omega), replaceOk]
      | some rest =>
        simp only
        have hl := matchOk_length _ _ hm
        simp only [List.length_cons] at hl
        rw [ih rest.length (by omega) rest f rfl (by omega),
          ih rest.length (by omega) rest cs.length rfl (by omega)]

theorem replaceOk_nil : replaceOk [] = [] := rfl

theorem replaceOk_cons (c : Char) (cs : Str) :
    replaceOk (c :: cs) =
      match matchOk (c :: cs) with
      | some rest => replaceOk rest
      | none => c :: replaceOk cs := by
  have h : replaceOk (c :: cs) = replaceOkFuel (cs.length + 1) (c :: cs) := rfl
  rw [h]
  simp only [replaceOkFuel]
  cases hm : matchOk (c :: cs) with
  | none => simp only; rw [replaceOkFuel_eq cs.length cs _ rfl le_rfl]
  | some rest =>
    simp only
    have hl := matchOk_length _ _ hm
    simp only [List.length_cons] at hl
    rw [replaceOkFuel_eq rest.length rest _ rfl (by omega)]

theorem replaceOk_cons_of_ne (c : Char) (cs : Str) (h : c ≠ '\n') :
    replaceOk (c :: cs) = c :: replaceOk cs := by
  rw [replaceOk_cons]; simp [matchOk, h]

theorem replaceOk_error (t : Str) :
    replaceOk ("ERROR".toList ++ t) = "ERROR".toList ++ replaceOk t := by
  show replaceOk ('E' :: 'R' :: 'R' :: 'O' :: 'R' :: t) = _
  rw [replaceOk_cons_of_ne _ _ (by decide), replaceOk_cons_of_ne _ _ (by decide),
    replaceOk_cons_of_ne _ _ (by decide), replaceOk_cons_of_ne _ _ (by decide),
    replaceOk_cons_of_ne _ _ (by decide)]
  rfl


theorem collapseCrNl_spec : ∀ s : Str,
    hasDoubleNl (collapseCrNl s) = false ∧
      (∀ tl, collapseCrNl s = '\n' :: tl → ∃ c cs, s = c :: cs ∧ isCrNl c = true)
  | [] => by simp [collapseCrNl, hasDoubleNl]
  | [c] => by
    by_cases h : isCrNl c = true
    · simp [collapseCrNl, hasDoubleNl, h]
    · simp only [collapseCrNl, h, hasDoubleNl, true_and]
      intro tl htl
      simp only [Bool.false_eq_true, if_false, List.cons.injEq] at htl
      exact absurd (by rw [htl.1]; rfl) h
  | c :: d :: cs => by
    obtain ⟨ih1, ih2⟩ := collapseCrNl_spec (d :: cs)
    by_cases hc : isCrNl c = true
    · by_cases hd : isCrNl d = true
      · simp only [collapseCrNl, hc, hd, if_true]
        exact ⟨ih1, fun tl _ => ⟨c, d :: cs, rfl, hc⟩⟩
      · simp only [collapseCrNl, hc, hd, if_true, Bool.false_eq_true, if_false]
        refine ⟨?_, fun tl _ => ⟨c, d :: cs, rfl, hc⟩⟩
        cases hr : collapseCrNl (d :: cs) with
        | nil => rfl
        | cons x r =>
          rw [hr] at ih1
          simp only [hasDoubleNl, ih1, Bool.or_false, beq_self_eq_true, Bool.true_and,
            beq_eq_false_iff_ne]
          rintro rfl
          obtain ⟨c', cs', h1, h2⟩ := ih2 r hr
          cases h1
          exact hd h2
    · have hcn : c ≠ '\n' := by rintro rfl; exact hc rfl
      simp only [collapseCrNl, hc, Bool.false_eq_true, if_false]
      refine ⟨?_, fun tl htl => absurd (List.cons.inj htl).1 hcn⟩
      cases hr : collapseCrNl (d :: cs) with
      | nil => rfl
      | cons x r =>
        rw [hr] at ih1
        simp [hasDoubleNl, ih1, hcn]

theorem read_noDouble (w w1 : World) (res : Str) (h : read w = .ok res w1) :
    hasDoubleNl res = false := by
  unfold read at h
  split at h
  · cases h; rfl
  · cases h
  · cases h; exact (collapseCrNl_spec _).1

theorem read_trace (w : World) (t : List Event) :
    read { w with trace := t } =
      match read w with
      | .ok r w1 => .ok r { w1 with trace := t }
      | .fatal m w1 => .fatal m { w1 with trace := t }
      | .panic w1 => .panic { w1 with trace := t } := by
  obtain ⟨pending, trace, links⟩ := w
  cases pending with
  | nil => rfl
  | cons r rest => cases r <;> rfl

theorem send_eq (command : Str) (keepOk : Bool) (w : World) :
    send command keepOk w =
      match read w with
      | .ok res w1 =>
        let out := if keepOk then res else if res = "OK".toList then [] else replaceOk res
        if HasPrefix out "ERROR".toList = true then
          .fatal out { w1 with trace := w.trace ++ [.wrote (command ++ "\r\n".toList)] }
        else .ok out { w1 with trace := w.trace ++ [.wrote (command ++ "\r\n".toList)] }
      | .fatal m w1 =>
        .fatal m { w1 with trace := w.trace ++ [.wrote (command ++ "\r\n".toList)] }
      | .panic w1 =>
        .panic { w1 with trace := w.trace ++ [.wrote (command ++ "\r\n".toList)] } := by
  simp only [send, write, emit, bind, M.bind, read_trace]
  cases read w with
  | ok res w1 =>
    cases keepOk
    · simp only [Bool.not_false, if_true, Bool.false_eq_true, if_false]
      split_ifs <;> rfl
    · simp only [Bool.not_true, Bool.false_eq_true, if_false, if_true]
      split_ifs <;> rfl
  | fatal m w1 => rfl
  | panic w1 => rfl

theorem hasDoubleNl_cons (c : Char) (s : Str) (h : hasDoubleNl (c :: s) = false) :
    hasDoubleNl s = false ∧ (c = '\n' → ∀ d r, s = d :: r → d ≠ '\n') := by
  cases s with
  | nil => exact ⟨rfl, fun _ d r h => by cases h⟩
  | cons x r =>
    simp only [hasDoubleNl, Bool.or_eq_false_iff, Bool.and_eq_false_imp, beq_iff_eq,
      beq_eq_false_iff_ne] at h
    refine ⟨h.2, fun hc d r' hr => ?_⟩
    cases hr
    exact h.1 hc

theorem replaceOk_append_ok (p : Str) :
    ¬ ("\nOK".toList <:+: p) → hasDoubleNl (p ++ "\nOK".toList) = false →
      replaceOk (p ++ "\nOK".toList) = p := by
  induction p with
  | nil => intro _ _; decide
  | cons c p ih =>
    intro h1 h2
    have h1' : ¬ ("\nOK".toList <:+: p) := fun h => h1 (List.infix_cons h)
    obtain ⟨h2', hnl⟩ := hasDoubleNl_cons c _ h2
    have hm : matchOk (c :: (p ++ "\nOK".toList)) = none := by
      by_cases hc : c = '\n'
      · subst hc
        cases p with
        | nil => exact absurd h2 (by decide)
        | cons x p =>
          have hx : x ≠ '\n' := hnl rfl x _ rfl
          have hxb : (x == '\n') = false := by simp [hx]
          cases p with
          | nil =>
            simp only [matchOk, List.cons_append, List.nil_append, if_true,
              List.dropWhile, hxb]
            simp
          | cons y r =>
            have hxy : ¬ (x = 'O' ∧ y = 'K') := by
              rintro ⟨rfl, rfl⟩
              exact h1 ⟨[], r, rfl⟩
            simp only [matchOk, List.cons_append, if_true, List.dropWhile, hxb]
            show (if x = 'O' ∧ y = 'K' then some (r ++ "\nOK".toList) else none) = none
            rw [if_neg hxy]
      · simp [matchOk, hc]
    rw [List.cons_append, replaceOk_cons, hm]
    simp only
    rw [ih h1' h2']


/-! ## C3: the trailing OK marker -/

/-- C3, as stated, fails: the payload `A`, line feed, `OKB` does not begin with
`ERROR`, yet for the reply made of it, a line feed and `OK`, `send` with keep-ok
false returns `AB`, because the source's pattern removes a line feed followed by
`OK` wherever it stands, not only at the end. -/
theorem send_payload_counterexample :
    ¬ (∀ (command : Str) (w w1 : World) (p : Str),
        HasPrefix p "ERROR".toList = false →
        read w = .ok (p ++ "\nOK".toList) w1 →
        ∃ w2, send command false w = .ok p w2) := by
  intro h
  obtain ⟨w2, hw⟩ := h "AT".toList ⟨[.data "A\r\nOKB\r\nOK\r\n".toList], [], []⟩ ⟨[], [], []⟩
    "A\nOKB".toList (by decide) (by decide)
  have he : send "AT".toList false ⟨[.data "A\r\nOKB\r\nOK\r\n".toList], [], []⟩
      = .ok "AB".toList ⟨[], [.wrote "AT\r\n".toList], []⟩ := by decide
  rw [he] at hw
  injection hw with h1 h2
  exact absurd h1 (by decide)

/-- C3, amended: with keep-ok false, a reply of exactly `OK` yields the empty
string, and for every payload `p` that does not begin with `ERROR` and in which
no line feed is followed by `OK`, a reply `p`, line feed, `OK` yields exactly
`p`. -/
theorem send_strips_trailing_ok (command : Str) (w w1 : World) (p : Str) :
    (read w = .ok "OK".toList w1 →
      send command false w
        = .ok [] { w1 with trace := w.trace ++ [.wrote (command ++ "\r\n".toList)] }) ∧
    (HasPrefix p "ERROR".toList = false → ¬ ("\nOK".toList <:+: p) →
      read w = .ok (p ++ "\nOK".toList) w1 →
      send command false w
        = .ok p { w1 with trace := w.trace ++ [.wrote (command ++ "\r\n".toList)] }) := by
  constructor
  · intro h
    rw [send_eq, h]
    rfl
  · intro hp hin h
    have hnd := read_noDouble w w1 _ h
    have hne : p ++ "\nOK".toList ≠ "OK".toList := by
      intro he
      have := congrArg List.length he
      simp at this
    rw [send_eq, h]
    simp only [Bool.false_eq_true, if_false, hne, replaceOk_append_ok p hin hnd, hp]

theorem send_strips_trailing_ok_witness :
    HasPrefix "+CPIN: READY".toList "ERROR".toList = false ∧
    ¬ ("\nOK".toList <:+: "+CPIN: READY".toList) ∧
    read ⟨[.data "\r\n+CPIN: READY\r\n\r\nOK\r\n".toList], [], []⟩
      = .ok ("+CPIN: READY".toList ++ "\nOK".toList) ⟨[], [], []⟩ ∧
    send "AT+CPIN?".toList false ⟨[.data "\r\n+CPIN: READY\r\n\r\nOK\r\n".toList], [], []⟩
      = .ok "+CPIN: READY".toList ⟨[], [.wrote "AT+CPIN?\r\n".toList], []⟩ :=
  ⟨by decide, by decide, by decide,
    (send_strips_trailing_ok "AT+CPIN?".toList
      ⟨[.data "\r\n+CPIN: READY\r\n\r\nOK\r\n".toList], [], []⟩ ⟨[], [], []⟩
      "+CPIN: READY".toList).2 (by decide) (by decide) (by decide)⟩

/-! ## C4: error replies -/

/-- C4: for every reply that begins with `ERROR` and either value of keep-ok,
`send` ends in `log.Fatal` (with a message that begins with `ERROR`) instead of
returning; and whenever `send` returns, the returned payload does not begin with
`ERROR`. -/
theorem send_error_fatal (command : Str) (keepOk : Bool) (w : World) :
    (∀ res w1, read w = .ok res w1 → HasPrefix res "ERROR".toList = true →
      ∃ msg w2, send command keepOk w = .fatal msg w2 ∧
        HasPrefix msg "ERROR".toList = true) ∧
    (∀ r w2, send command keepOk w = .ok r w2 → HasPrefix r "ERROR".toList = false) := by
  constructor
  · intro res w1 h hp
    obtain ⟨t, rfl⟩ := (HasPrefix_iff _ _).1 hp
    have hne : "ERROR".toList ++ t ≠ "OK".toList := by
      intro he
      have := congrArg List.head? he
      simp at this
    have hp2 : HasPrefix ("ERROR".toList ++ replaceOk t) "ERROR".toList = true :=
      (HasPrefix_iff _ _).2 ⟨_, rfl⟩
    rw [send_eq, h]
    cases keepOk
    · simp only [Bool.false_eq_true, if_false, hne, replaceOk_error, hp2, if_true]
      exact ⟨_, _, rfl, hp2⟩
    · simp only [if_true, hp]
      exact ⟨_, _, rfl, hp⟩
  · intro r w2 h
    rw [send_eq] at h
    cases hr : read w with
    | ok res w1 =>
      rw [hr] at h
      simp only at h
      split_ifs at h with hk h1 h2 <;> cases h <;> simp_all
    | fatal m w1 => rw [hr] at h; cases h
    | panic w1 => rw [hr] at h; cases h

theorem send_error_fatal_witness :
    read ⟨[.data "\r\nERROR\r\n".toList], [], []⟩ = .ok "ERROR".toList ⟨[], [], []⟩ ∧
    HasPrefix "ERROR".toList "ERROR".toList = true ∧
    ∃ msg w2, send "AT".toList false ⟨[.data "\r\nERROR\r\n".toList], [], []⟩
        = .fatal msg w2 ∧ HasPrefix msg "ERROR".toList = true :=
  ⟨by decide, by decide,
    (send_error_fatal "AT".toList false ⟨[.data "\r\nERROR\r\n".toList], [], []⟩).1
      "ERROR".toList ⟨[], [], []⟩ (by decide) (by decide)⟩


theorem Split_of_not_mem (sep : Char) (x : Str) (h : sep ∉ x) : Split sep x = [x] := by
  induction x with
  | nil => rfl
  | cons c cs ih =>
    have hc : c ≠ sep := fun e => h (by simp [e])
    have hcs : sep ∉ cs := fun e => h (List.mem_cons_of_mem _ e)
    simp [Split, hc, ih hcs]

theorem Split_append_sep (sep : Char) (x rest : Str) (h : sep ∉ x) :
    Split sep (x ++ sep :: rest) = x :: Split sep rest := by
  induction x with
  | nil => simp [Split]
  | cons c cs ih =>
    have hc : c ≠ sep := fun e => h (by simp [e])
    have hcs : sep ∉ cs := fun e => h (List.mem_cons_of_mem _ e)
    simp [Split, hc, ih hcs]

theorem Split_joinWith (sep : Char) : ∀ (x : Str) (xs : List Str),
    (∀ f ∈ x :: xs, sep ∉ f) → Split sep (joinWith sep (x :: xs)) = x :: xs
  | x, [], h => by simpa [joinWith] using Split_of_not_mem sep x (h x (by simp))
  | x, y :: r, h => by
    rw [joinWith, Split_append_sep sep x _ (h x (by simp)),
      Split_joinWith sep y r (fun f hf => h f (List.mem_cons_of_mem _ hf))]

theorem natDigits_digit (n : Nat) : ∀ c ∈ natDigits n, ∃ d, d < 10 ∧ c = digitChar d := by
  induction n using Nat.strong_induction_on with
  | _ n ih =>
    intro c hc
    by_cases h : n < 10
    · rw [natDigits_small n h] at hc
      exact ⟨n, h, by simpa using hc⟩
    · rw [natDigits_step n (by omega)] at hc
      rcases List.mem_append.1 hc with hc | hc
      · exact ih (n / 10) (by omega) c hc
      · exact ⟨n % 10, by omega, by simpa using hc⟩

theorem itoa_no_comma (z : Int) : ',' ∉ itoa z := by
  have hd : ',' ∉ natDigits z.natAbs := by
    intro h
    obtain ⟨d, hd, he⟩ := natDigits_digit _ _ h
    interval_cases d <;> exact absurd he (by decide)
  unfold itoa
  split_ifs
  · simp only [List.mem_cons, not_or]
    exact ⟨by decide, hd⟩
  · exact hd

theorem half_offset_exact (q k : ℤ) (hk0 : 0 ≤ k) (hk : k ≤ 43)
    (h1 : -(2 ^ 24) + 2 * k ≤ q) (h2 : q < 128) :
    f32round (f32round (f32round (q : ℚ) * (1 / 2)) + (-(k : ℚ)))
      = (q : ℚ) * (1 / 2) - k := by
  have e1 : f32round (q : ℚ) = q := by
    have := f32round_exact q 0 (abs_le.2 ⟨by omega, by omega⟩) (by norm_num)
    simpa using this
  have e2 : f32round ((q : ℚ) * (1 / 2)) = (q : ℚ) * (1 / 2) := by
    have := f32round_exact q (-1) (abs_le.2 ⟨by omega, by omega⟩) (by norm_num)
    have h : (2 : ℚ) ^ (-1 : ℤ) = 1 / 2 := by norm_num
    rw [h] at this
    exact this
  have e3 : f32round ((q : ℚ) * (1 / 2) + (-(k : ℚ))) = (q : ℚ) * (1 / 2) + (-(k : ℚ)) := by
    have := f32round_exact (q - 2 * k) (-1) (abs_le.2 ⟨by omega, by omega⟩) (by norm_num)
    have h : ((q - 2 * k : ℤ) : ℚ) * (2 : ℚ) ^ (-1 : ℤ) = (q : ℚ) * (1 / 2) + (-(k : ℚ)) := by
      push_cast
      norm_num
      ring
    rw [h] at this
    exact this
  rw [e1, e2, e3]
  ring

theorem f32round_clamp_ge (z : ℤ) (h : 128 ≤ z) : ¬ f32round ((clamp64 z : ℤ) : ℚ) < 128 := by
  have hc : (128 : ℤ) ≤ clamp64 z := by
    unfold clamp64
    split_ifs <;> omega
  have hq : (2 : ℚ) ^ (7 : ℤ) ≤ ((clamp64 z : ℤ) : ℚ) := by
    have : ((128 : ℤ) : ℚ) ≤ ((clamp64 z : ℤ) : ℚ) := by exact_mod_cast hc
    norm_num at this ⊢
    exact this
  have := f32round_ge _ 7 (by norm_num) hq
  norm_num at this ⊢
  exact this


theorem SignalInfo_fields (w w1 : World) (f0 f1 f2 f3 f4 f5 a b c : Str)
    (hf : ∀ f ∈ [f0, f1, f2, f3, f4, f5, a, b, c], ',' ∉ f)
    (hsend : send "AT+CESQ".toList false w
      = .ok ("+CESQ: ".toList ++ joinWith ',' [f0, f1, f2, f3, f4, f5, a, b, c]) w1) :
    SignalInfo w = .ok
      ⟨if atof a < 128 then f32round (f32round (atof a * (1 / 2)) + (-43)) else 0,
        if atoi b < 128 then wrap64 (atoi b + (-156)) else 0,
        if atof c < 128 then f32round (f32round (atof c * (1 / 2)) + (-23)) else 0⟩ w1 := by
  have hp : HasPrefix ("+CESQ: ".toList ++ joinWith ',' [f0, f1, f2, f3, f4, f5, a, b, c])
      "+CESQ: ".toList = true := (HasPrefix_iff _ _).2 ⟨_, rfl⟩
  have hs : sliceFrom ("+CESQ: ".toList ++ joinWith ',' [f0, f1, f2, f3, f4, f5, a, b, c]) 7
      = pure (joinWith ',' [f0, f1, f2, f3, f4, f5, a, b, c]) := by
    unfold sliceFrom
    rw [if_pos (by simp)]
    rfl
  have hsp := Split_joinWith ',' f0 [f1, f2, f3, f4, f5, a, b, c] hf
  simp only [SignalInfo, bind, M.bind, hsend, hp, hs, pure, hsp]
  simp only [Bool.not_true, Bool.false_eq_true, if_false, M.bind, hsp]
  rfl


theorem wrap64_of_range (z : Int) (h1 : -(2 ^ 63) ≤ z) (h2 : z < 2 ^ 63) : wrap64 z = z := by
  unfold wrap64
  omega

theorem atof_itoa_small (q k : ℤ) (hk0 : 0 ≤ k) (hk : k ≤ 43)
    (h1 : -(2 ^ 24) + 2 * k ≤ q) (h2 : q < 128) :
    (if atof (itoa q) < 128 then
        f32round (f32round (atof (itoa q) * (1 / 2)) + (-(k : ℚ))) else 0)
      = (q : ℚ) * (1 / 2) - k := by
  have hc : atoi (itoa q) = q := atoi_itoa_of_range q (by omega) (by omega)
  have e1 : f32round (q : ℚ) = q := by
    have := f32round_exact q 0 (abs_le.2 ⟨by omega, by omega⟩) (by norm_num)
    simpa using this
  have hlt : atof (itoa q) < 128 := by
    rw [atof, hc, e1]
    exact_mod_cast h2
  rw [if_pos hlt, atof, hc]
  exact half_offset_exact q k hk0 hk h1 h2

theorem atof_itoa_large (q : ℤ) (c : ℚ) (h : ¬ q < 128) :
    (if atof (itoa q) < 128 then
        f32round (f32round (atof (itoa q) * (1 / 2)) + c) else 0) = 0 := by
  rw [if_neg]
  rw [atof, atoi_itoa]
  exact f32round_clamp_ge q (by omega)

/-! ## C1: signal decoding -/

/-- C1, amended: for every reply `+CESQ: ` followed by exactly 9 comma-separated
fields whose 7th, 8th and 9th fields are the decimal integers `q`, `p`, `s` with
`q ≥ -2^24 + 86`, `p ≥ -2^63 + 156` and `s ≥ -2^24 + 46` (so in particular for
all codes 0..255 and for all larger values), the returned Signal has
power `p - 156` if `p < 128` else 0, quality `q * 0.5 - 43` if `q < 128` else 0,
and interference `s * 0.5 - 23` if `s < 128` else 0, as exact rationals. -/
theorem SignalInfo_decodes (w w1 : World) (pre : List Str) (q p s : Int)
    (hlen : pre.length = 6) (hpre : ∀ f ∈ pre, ',' ∉ f)
    (hq : -(2 ^ 24) + 86 ≤ q) (hp : -(2 ^ 63) + 156 ≤ p) (hs : -(2 ^ 24) + 46 ≤ s)
    (hsend : send "AT+CESQ".toList false w
      = .ok ("+CESQ: ".toList ++ joinWith ',' (pre ++ [itoa q, itoa p, itoa s])) w1) :
    SignalInfo w = .ok
      ⟨if q < 128 then (q : ℚ) * (1 / 2) - 43 else 0,
        if p < 128 then p - 156 else 0,
        if s < 128 then (s : ℚ) * (1 / 2) - 23 else 0⟩ w1 := by
  rcases pre with _ | ⟨f0, _ | ⟨f1, _ | ⟨f2, _ | ⟨f3, _ | ⟨f4, _ | ⟨f5, _ | ⟨f6, r⟩⟩⟩⟩⟩⟩⟩ <;>
    simp only [List.length_cons, List.length_nil] at hlen <;> try omega
  have hf : ∀ f ∈ [f0, f1, f2, f3, f4, f5, itoa q, itoa p, itoa s], ',' ∉ f := by
    intro f hfm
    simp only [List.mem_cons, List.mem_singleton, List.not_mem_nil, or_false] at hfm
    rcases hfm with rfl | rfl | rfl | rfl | rfl | rfl | rfl | rfl | rfl
    · exact hpre _ (by simp)
    · exact hpre _ (by simp)
    · exact hpre _ (by simp)
    · exact hpre _ (by simp)
    · exact hpre _ (by simp)
    · exact hpre _ (by simp)
    · exact itoa_no_comma q
    · exact itoa_no_comma p
    · exact itoa_no_comma s
  rw [SignalInfo_fields w w1 f0 f1 f2 f3 f4 f5 (itoa q) (itoa p) (itoa s) hf hsend]
  have eq : (if atof (itoa q) < 128 then
        f32round (f32round (atof (itoa q) * (1 / 2)) + (-43)) else 0)
      = if q < 128 then (q : ℚ) * (1 / 2) - 43 else 0 := by
    by_cases h : q < 128
    · rw [if_pos h]
      have := atof_itoa_small q 43 (by norm_num) (by norm_num) (by omega) h
      simpa using this
    · rw [if_neg h]; exact atof_itoa_large q _ h
  have es : (if atof (itoa s) < 128 then
        f32round (f32round (atof (itoa s) * (1 / 2)) + (-23)) else 0)
      = if s < 128 then (s : ℚ) * (1 / 2) - 23 else 0 := by
    by_cases h : s < 128
    · rw [if_pos h]
      have := atof_itoa_small s 23 (by norm_num) (by norm_num) (by omega) h
      simpa using this
    · rw [if_neg h]; exact atof_itoa_large s _ h
  have ep : (if atoi (itoa p) < 128 then wrap64 (atoi (itoa p) + (-156)) else 0)
      = if p < 128 then p - 156 else 0 := by
    rw [atoi_itoa]
    by_cases h : p < 128
    · have hc : clamp64 p = p := by unfold clamp64; split_ifs <;> omega
      rw [hc, if_pos h, if_pos h, wrap64_of_range _ (by omega) (by omega)]
      ring
    · have hc : ¬ clamp64 p < 128 := by unfold clamp64; split_ifs <;> omega
      rw [if_neg hc, if_neg h]
  rw [eq, es, ep]

theorem SignalInfo_decodes_witness :
    (["99".toList, "99".toList, "255".toList, "255".toList, "255".toList,
        "255".toList] : List Str).length = 6 ∧
    (∀ f ∈ (["99".toList, "99".toList, "255".toList, "255".toList, "255".toList,
        "255".toList] : List Str), ',' ∉ f) ∧
    SignalInfo
      ⟨[.data "+CESQ: 99,99,255,255,255,255,40,60,30\r\n\r\nOK\r\n".toList], [], []⟩
      = .ok ⟨if (40 : Int) < 128 then ((40 : Int) : ℚ) * (1 / 2) - 43 else 0,
          if (60 : Int) < 128 then 60 - 156 else 0,
          if (30 : Int) < 128 then ((30 : Int) : ℚ) * (1 / 2) - 23 else 0⟩
        ⟨[], [.wrote "AT+CESQ\r\n".toList], []⟩ :=
  ⟨by decide, by decide,
    SignalInfo_decodes _ _
      ["99".toList, "99".toList, "255".toList, "255".toList, "255".toList, "255".toList]
      40 60 30 (by decide) (by decide) (by decide) (by decide) (by decide) (by decide)⟩

/-- C1, as stated, fails: with the power field `-9223372036854775808`, the
smallest 64-bit `int`, the source's `SsRsrp += -156` wraps around, so the
returned power is `9223372036854775652` and not `p - 156`. -/
theorem SignalInfo_counterexample :
    ¬ (∀ (w w1 : World) (pre : List Str) (q p s : Int),
        pre.length = 6 → (∀ f ∈ pre, ',' ∉ f) →
        send "AT+CESQ".toList false w
          = .ok ("+CESQ: ".toList ++ joinWith ',' (pre ++ [itoa q, itoa p, itoa s])) w1 →
        SignalInfo w = .ok
          ⟨if q < 128 then (q : ℚ) * (1 / 2) - 43 else 0,
            if p < 128 then p - 156 else 0,
            if s < 128 then (s : ℚ) * (1 / 2) - 23 else 0⟩ w1) := by
  intro h
  have hsend : send "AT+CESQ".toList false
      ⟨[.data "+CESQ: 99,99,255,255,255,255,0,-9223372036854775808,0\r\n\r\nOK\r\n".toList],
        [], []⟩
      = .ok ("+CESQ: ".toList ++ joinWith ','
          (["99".toList, "99".toList, "255".toList, "255".toList, "255".toList,
            "255".toList] ++ [itoa 0, itoa (-9223372036854775808), itoa 0]))
        ⟨[], [.wrote "AT+CESQ\r\n".toList], []⟩ := by decide
  have h1 := h _ _ _ 0 (-9223372036854775808) 0 (by decide) (by decide) hsend
  have h2 := SignalInfo_fields _ _ _ _ _ _ _ _ _ _ _ (by decide) hsend
  rw [h2] at h1
  injection h1 with h3 _
  have h4 := congrArg Signal.SsRsrp h3
  revert h4
  decide


theorem TrimFunc_id (f : Char → Bool) (t : Str)
    (h1 : ∀ c, t.head? = some c → f c = false)
    (h2 : ∀ c, t.getLast? = some c → f c = false) : TrimFunc f t = t := by
  have d1 : ∀ u : Str, (∀ c, u.head? = some c → f c = false) → u.dropWhile f = u := by
    intro u hu
    cases u with
    | nil => rfl
    | cons c cs => simp [List.dropWhile, hu c rfl]
  unfold TrimFunc
  rw [d1 t h1, d1 t.reverse (by simpa using h2), List.reverse_reverse]

theorem hexVal_ne (c : Char) (h : (hexVal c).isSome = true) : c ≠ '.' ∧ c ≠ '"' := by
  constructor <;> rintro rfl <;> exact absurd h (by decide)

theorem asIpAddr_no_dot (t : Str) (hd : '.' ∉ t)
    (h1 : ∀ c, t.head? = some c → c ≠ '"') (h2 : ∀ c, t.getLast? = some c → c ≠ '"') :
    asIpAddr t false = fmt02x (atoi t) ∧
      asIpAddr t true = fmt02x (atoi t) ++ "/64".toList := by
  have ht : Trim '"' t = t :=
    TrimFunc_id _ t (fun c hc => by simpa using h1 c hc) (fun c hc => by simpa using h2 c hc)
  have hs : Split '.' t = [t] := Split_of_not_mem '.' t hd
  simp [asIpAddr, ht, hs, ipv6Loop]

/-! ## C9 and C10: address tokens -/

/-- C9: for every token `t` that has exactly four dot-separated parts and no
double-quote character at its start or its end, `asIpAddr t false` is `t` and
`asIpAddr t true` is `t` followed by `/24`. -/
theorem asIpAddr_ipv4 (t : Str) (h4 : (Split '.' t).length = 4)
    (h1 : ∀ c, t.head? = some c → c ≠ '"') (h2 : ∀ c, t.getLast? = some c → c ≠ '"') :
    asIpAddr t false = t ∧ asIpAddr t true = t ++ "/24".toList := by
  have ht : Trim '"' t = t :=
    TrimFunc_id _ t (fun c hc => by simpa using h1 c hc) (fun c hc => by simpa using h2 c hc)
  simp [asIpAddr, ht, h4]

theorem asIpAddr_ipv4_witness :
    (Split '.' "192.168.1.5".toList).length = 4 ∧
    asIpAddr "192.168.1.5".toList false = "192.168.1.5".toList ∧
    asIpAddr "192.168.1.5".toList true = "192.168.1.5/24".toList :=
  ⟨by decide, asIpAddr_ipv4 "192.168.1.5".toList (by decide) (by decide) (by decide)⟩

/-- C10, as stated, fails: for the token `20010db8000000000000000000000001`,
made of the 8 groups `2001 0db8 0000 0000 0000 0000 0000 0001` written one after
another, `asIpAddr` does not return the groups joined by colons (it returns
`00`). -/
theorem asIpAddr_hex_counterexample :
    ¬ (∀ groups : List Str, groups.length = 8 →
        (∀ g ∈ groups, g ≠ [] ∧ ∀ c ∈ g, (hexVal c).isSome = true) →
        asIpAddr groups.flatten false = joinWith ':' groups ∧
        asIpAddr groups.flatten true = joinWith ':' groups ++ "/64".toList) := by
  intro h
  have h1 := (h ["2001".toList, "0db8".toList, "0000".toList, "0000".toList, "0000".toList,
    "0000".toList, "0000".toList, "0001".toList] (by decide) (by decide)).1
  revert h1
  decide

/-- C10, amended: for every token made of 8 non-empty groups of hexadecimal
digits written one after another with no separator, `asIpAddr token false` is
the `%02x` rendering of `atoi token`, the whole token read as one decimal
number (0 when it is not one), and `asIpAddr token true` is the same text
followed by `/64`. -/
theorem asIpAddr_hex_token (groups : List Str) (_h8 : groups.length = 8)
    (hg : ∀ g ∈ groups, g ≠ [] ∧ ∀ c ∈ g, (hexVal c).isSome = true) :
    asIpAddr groups.flatten false = fmt02x (atoi groups.flatten) ∧
    asIpAddr groups.flatten true = fmt02x (atoi groups.flatten) ++ "/64".toList := by
  have hc : ∀ c ∈ groups.flatten, (hexVal c).isSome = true := by
    intro c hc
    obtain ⟨g, hgm, hcg⟩ := List.mem_flatten.1 hc
    exact (hg g hgm).2 c hcg
  apply asIpAddr_no_dot
  · exact fun hd => (hexVal_ne _ (hc _ hd)).1 rfl
  · intro c hh
    exact (hexVal_ne c (hc c (List.mem_of_mem_head? hh))).2
  · intro c hh
    exact (hexVal_ne c (hc c (List.mem_of_mem_getLast? hh))).2

theorem asIpAddr_hex_token_witness :
    asIpAddr "20010db8000000000000000000000001".toList false = "00".toList ∧
    asIpAddr "20010db8000000000000000000000001".toList true = "00/64".toList :=
  asIpAddr_hex_token ["2001".toList, "0db8".toList, "0000".toList, "0000".toList,
    "0000".toList, "0000".toList, "0000".toList, "0001".toList] (by decide) (by decide)


/-! ## C6: decode mismatches -/

/-- C6, the code at three failing inputs: a DNS line shorter than 12
characters, a band reply with two fields, and a temperature line with a valid
index and no comma each end in a run-time panic (slice or index out of range),
in either output mode. -/
theorem decoders_panic_on_mismatch :
    DNS ⟨5⟩ ⟨[.data "+GTDNS: 1,2\r\n\r\nOK\r\n".toList], [], []⟩
      = .panic ⟨[], [.wrote "AT+GTDNS=5\r\n".toList], []⟩ ∧
    (∀ asJson, ModemBands asJson ⟨[.data "+GTACT: 20,6\r\n\r\nOK\r\n".toList], [], []⟩
      = .panic ⟨[], [.wrote "AT+GTACT?\r\n".toList], []⟩) ∧
    (∀ asJson, ModemTemperature asJson ⟨[.data "+GTSENRDTEMP: 1\r\n\r\nOK\r\n".toList], [], []⟩
      = .panic ⟨[], [.wrote "AT+GTSENRDTEMP=0\r\n".toList], []⟩) := by
  refine ⟨by decide, ?_, ?_⟩
  · intro asJson; cases asJson <;> decide
  · intro asJson; cases asJson <;> decide

/-! ## C7: SMS listing -/

/-- C7, the code at a failing input: the list reply has two PDU lines, the
first of which, `ZZ`, is not hexadecimal, so `decodeSms` returns nil for it
whatever the codec.  In text mode `SmsList` panics on the nil message before
anything is printed, so the listing is aborted and the second line's message
is not produced; in JSON mode the failed line contributes a `null` entry. -/
theorem SmsList_decode_failure (codec : List Nat → Option Sms) :
    SmsList codec false
        ⟨[.data "+CMGL: 1,1,,2\r\nZZ\r\n+CMGL: 2,1,,2\r\n0A0B\r\n\r\nOK\r\n".toList], [], []⟩
      = .panic ⟨[], [.wrote "AT+CMGL=4\r\n".toList], []⟩ ∧
    SmsList codec true
        ⟨[.data "+CMGL: 1,1,,2\r\nZZ\r\n+CMGL: 2,1,,2\r\n0A0B\r\n\r\nOK\r\n".toList], [], []⟩
      = .ok () ⟨[], [.wrote "AT+CMGL=4\r\n".toList, .smsJson [none, codec [10, 11]]], []⟩ := by
  constructor
  · rfl
  · rfl

/-! ## C5: disconnecting -/

/-- C5, what the code does: when the modem reports an active context
(`IsConnected` returns true) on an existing interface, `Connect netdev false`
is exactly `FlushNetDev` run after the status query: `SetContext` is skipped,
so no `AT+CGACT=0,<cid>` is written. -/
theorem Connect_skips_deactivation (parseAddr : Str → Option Addr) (m : Modem)
    (netdev : Str) (w w1 : World) (hl : (w.links.lookup netdev).isSome = true)
    (hc : IsConnected m w = .ok true w1) :
    Connect parseAddr m netdev false w = FlushNetDev netdev w1 := by
  have hlk : LinkByName netdev w = .ok (some netdev) w := by
    unfold LinkByName
    cases hx : w.links.lookup netdev with
    | none => rw [hx] at hl; cases hl
    | some a => rfl
  simp only [Connect, bind, M.bind, hlk, hc, Bool.not_true, Bool.false_eq_true, if_false,
    pure]
  cases FlushNetDev netdev w1 <;> rfl

theorem Connect_skips_deactivation_witness :
    Connect (fun _ => none) ⟨5⟩ "eth0".toList false
        ⟨[.data "+CGPADDR: 5,\"10.0.0.2\"\r\n\r\nOK\r\n".toList], [],
          [("eth0".toList, [[10, 0, 0, 2]])]⟩
      = .ok () ⟨[], [.wrote "AT+CGPADDR=5\r\n".toList, .linkDown "eth0".toList,
          .addrDel "eth0".toList [10, 0, 0, 2]], [("eth0".toList, [])]⟩ :=
  (Connect_skips_deactivation (fun _ => none) ⟨5⟩ "eth0".toList
    ⟨[.data "+CGPADDR: 5,\"10.0.0.2\"\r\n\r\nOK\r\n".toList], [],
      [("eth0".toList, [[10, 0, 0, 2]])]⟩
    ⟨[], [.wrote "AT+CGPADDR=5\r\n".toList], [("eth0".toList, [[10, 0, 0, 2]])]⟩
    (by decide) (by decide)).trans (by decide)


theorem temperatureLine_eq (asJson : Bool) (obj : List (Str × F32)) (a b : Str) (w : World)
    (ha : ',' ∉ a) (hb : ',' ∉ b)
    (ht : TrimSpace ("+GTSENRDTEMP: ".toList ++ a ++ ",".toList ++ b)
      = "+GTSENRDTEMP: ".toList ++ a ++ ",".toList ++ b) :
    temperatureLine asJson obj ("+GTSENRDTEMP: ".toList ++ a ++ ",".toList ++ b) w =
      if wrap64 (atoi a - 1) < 0 ∨ wrap64 (atoi a - 1) ≥ 23 then
        if asJson then .ok obj w
        else .ok obj { w with trace := w.trace ++
          [.badIndex (wrap64 (atoi a - 1)) ("+GTSENRDTEMP: ".toList ++ a ++ ",".toList ++ b)] }
      else
        match sensors.get? (wrap64 (atoi a - 1)).toNat with
        | none => .panic w
        | some sensor =>
          if asJson then .ok (mapSet obj sensor (f32round (atof b / 1000))) w
          else .ok obj { w with trace := w.trace ++
            [.tempLine sensor (f32round (atof b / 1000))] } := by
  have hp : HasPrefix ("+GTSENRDTEMP: ".toList ++ a ++ ",".toList ++ b)
      "+GTSENRDTEMP: ".toList = true :=
    (HasPrefix_iff _ _).2 ⟨a ++ ",".toList ++ b, by simp⟩
  have hs : sliceFrom ("+GTSENRDTEMP: ".toList ++ a ++ ",".toList ++ b) 14
      = pure (a ++ ',' :: b) := by
    unfold sliceFrom
    rw [if_pos (by simp)]
    simp
  have hsp : Split ',' (a ++ ',' :: b) = [a, b] := by
    rw [Split_append_sep ',' a b ha, Split_of_not_mem ',' b hb]
  have hlen : ((sensors.length : ℕ) : ℤ) = 23 := rfl
  simp only [temperatureLine, bind, M.bind, ht, hp, hs, pure, hsp, hlen]
  simp only [Bool.not_true, Bool.false_eq_true, if_false, M.bind, hsp, elemAt, List.get?, pure]
  by_cases hi : wrap64 (atoi a - 1) < 0 ∨ wrap64 (atoi a - 1) ≥ 23
  · simp only [hi, if_true]
    cases asJson <;> rfl
  · simp only [hi, if_false]
    cases sensors.get? (wrap64 (atoi a - 1)).toNat <;> cases asJson <;> rfl

theorem itoa_last (z : Int) : ∃ pre d, d < 10 ∧ itoa z = pre ++ [digitChar d] := by
  have hn : ∀ n : Nat, ∃ pre d, d < 10 ∧ natDigits n = pre ++ [digitChar d] := by
    intro n
    by_cases h : n < 10
    · exact ⟨[], n, h, natDigits_small n h⟩
    · exact ⟨natDigits (n / 10), n % 10, by omega, natDigits_step n (by omega)⟩
  obtain ⟨pre, d, hd, he⟩ := hn z.natAbs
  unfold itoa
  split_ifs
  · exact ⟨'-' :: pre, d, hd, by rw [he]; rfl⟩
  · exact ⟨pre, d, hd, he⟩

theorem digitChar_not_space (d : Nat) (h : d < 10) : isSpace (digitChar d) = false := by
  interval_cases d <;> decide

theorem TrimSpace_temperature (a b : Str) (z : Int) (hb : b = itoa z) :
    TrimSpace ("+GTSENRDTEMP: ".toList ++ a ++ ",".toList ++ b)
      = "+GTSENRDTEMP: ".toList ++ a ++ ",".toList ++ b := by
  obtain ⟨pre, d, hd, he⟩ := itoa_last z
  apply TrimFunc_id
  · intro c hc
    have : c = '+' := by simpa using hc.symm
    rw [this]; decide
  · intro c hc
    rw [hb, he, ← List.append_assoc, List.getLast?_append, List.getLast?_singleton] at hc
    simp at hc
    rw [← hc]
    exact digitChar_not_space d hd


theorem f32round_le (x : ℚ) (k : ℤ) (h1 : 1 ≤ x) (h2 : x ≤ (2 : ℚ) ^ k) :
    f32round x ≤ (2 : ℚ) ^ k := by
  have hpos : 0 < x := lt_of_lt_of_le one_pos h1
  have hk0 : 0 ≤ k := by
    by_contra hk
    have : (2 : ℚ) ^ k < 1 := zpow_lt_one_of_neg₀ (by norm_num) (by omega)
    linarith
  rcases eq_or_lt_of_le h2 with heq | hlt
  · have := f32round_exact 1 k (by norm_num) (by omega)
    simp only [Int.cast_one, one_mul] at this
    rw [heq, this]
  have hx0 : x ≠ 0 := ne_of_gt hpos
  have he0 : 0 ≤ Int.log 2 x :=
    (Int.zpow_le_iff_le_log (by norm_num) hpos).1 (by simpa using h1)
  have hek : Int.log 2 x < k :=
    (Int.lt_zpow_iff_log_lt (by norm_num) hpos).1 (by simpa using hlt)
  have hlt2 : x < ((2 : ℕ) : ℚ) ^ (Int.log 2 x + 1) := Int.lt_zpow_succ_log_self (by norm_num) x
  simp only [f32round, hx0, if_false, abs_of_pos hpos]
  rw [max_eq_left (by omega)]
  set e := Int.log 2 x with he
  have h2t : (0 : ℚ) < (2 : ℚ) ^ (e - 23) := zpow_pos (by norm_num) _
  have hsplit : ((2 ^ 24 : ℤ) : ℚ) * (2 : ℚ) ^ (e - 23) = (2 : ℚ) ^ (e + 1) := by
    rw [zpow_sub₀ (by norm_num), zpow_add₀ (by norm_num)]
    norm_num
    ring
  have hy : x / (2 : ℚ) ^ (e - 23) < ((2 ^ 24 : ℤ) : ℚ) := by
    rw [div_lt_iff₀ h2t, hsplit]
    simpa using hlt2
  have hfl : ⌊x / (2 : ℚ) ^ (e - 23)⌋ < 2 ^ 24 := Int.floor_lt.2 hy
  have hr : roundHalfEven (x / (2 : ℚ) ^ (e - 23)) ≤ 2 ^ 24 :=
    le_trans (roundHalfEven_le _) (by omega)
  have hrq : (roundHalfEven (x / (2 : ℚ) ^ (e - 23)) : ℚ) ≤ ((2 ^ 24 : ℤ) : ℚ) := by
    exact_mod_cast hr
  calc (roundHalfEven (x / (2 : ℚ) ^ (e - 23)) : ℚ) * (2 : ℚ) ^ (e - 23)
      ≤ ((2 ^ 24 : ℤ) : ℚ) * (2 : ℚ) ^ (e - 23) :=
        mul_le_mul_of_nonneg_right hrq (le_of_lt h2t)
    _ = (2 : ℚ) ^ (e + 1) := hsplit
    _ ≤ (2 : ℚ) ^ k := zpow_le_zpow_right₀ (by norm_num) (by omega)

theorem reading_clamped_bound :
    f32round (f32round (((2 ^ 63 - 1 : ℤ)) : ℚ) / 1000) ≤ (2 : ℚ) ^ (54 : ℤ) := by
  have hu : f32round (((2 ^ 63 - 1 : ℤ)) : ℚ) ≤ (2 : ℚ) ^ (63 : ℤ) :=
    f32round_le _ 63 (by norm_num) (by norm_num)
  have hl : (2 : ℚ) ^ (62 : ℤ) ≤ f32round (((2 ^ 63 - 1 : ℤ)) : ℚ) :=
    f32round_ge _ 62 (by norm_num) (by norm_num)
  apply f32round_le _ 54
  · rw [le_div_iff₀ (by norm_num)]
    refine le_trans ?_ hl
    norm_num
  · rw [div_le_iff₀ (by norm_num)]
    refine le_trans hu ?_
    norm_num

theorem lookup_map_replace (k : Str) (v : F32) : ∀ obj : List (Str × F32),
    (obj.any (fun e => decide (e.1 = k))) = true →
      List.lookup k (obj.map (fun e => if e.1 = k then (k, v) else e)) = some v
  | [], h => by simp at h
  | (a, b) :: rest, h => by
    by_cases he : a = k
    · rw [List.map_cons, if_pos he, List.lookup_cons]
      simp
    · have hr : rest.any (fun e => decide (e.1 = k)) = true := by
        simpa [List.any_cons, he] using h
      have hb : (k == a) = false := by
        simp only [beq_eq_false_iff_ne, ne_eq]
        exact fun h' => he h'.symm
      rw [List.map_cons, if_neg he, List.lookup_cons, hb]
      exact lookup_map_replace k v rest hr

theorem lookup_append_new (k : Str) (v : F32) : ∀ obj : List (Str × F32),
    ¬ (obj.any (fun e => decide (e.1 = k))) = true →
      List.lookup k (obj ++ [(k, v)]) = some v
  | [], _ => by simp [List.lookup_cons]
  | (a, b) :: rest, h => by
    have he : ¬ a = k := by
      intro he
      exact h (by simp [List.any_cons, he])
    have hr : ¬ rest.any (fun e => decide (e.1 = k)) = true := by
      intro hr
      exact h (by simp only [List.any_cons, hr, Bool.or_true])
    have hb : (k == a) = false := by
      simp only [beq_eq_false_iff_ne, ne_eq]
      exact fun h' => he h'.symm
    rw [List.cons_append, List.lookup_cons, hb]
    exact lookup_append_new k v rest hr

theorem mapGet_mapSet (obj : List (Str × F32)) (k : Str) (v : F32) :
    mapGet (mapSet obj k v) k = some v := by
  unfold mapGet mapSet
  split_ifs with h
  · exact lookup_map_replace k v obj h
  · exact lookup_append_new k v obj h


theorem temperatureLine_itoa (asJson : Bool) (obj : List (Str × F32)) (i r : Int)
    (w : World) :
    temperatureLine asJson obj
        ("+GTSENRDTEMP: ".toList ++ itoa i ++ ",".toList ++ itoa r) w =
      if wrap64 (clamp64 i - 1) < 0 ∨ wrap64 (clamp64 i - 1) ≥ 23 then
        if asJson then .ok obj w
        else .ok obj { w with trace := w.trace ++
          [.badIndex (wrap64 (clamp64 i - 1))
            ("+GTSENRDTEMP: ".toList ++ itoa i ++ ",".toList ++ itoa r)] }
      else
        match sensors.get? (wrap64 (clamp64 i - 1)).toNat with
        | none => .panic w
        | some sensor =>
          if asJson then
            .ok (mapSet obj sensor (f32round (f32round ((clamp64 r : ℤ) : ℚ) / 1000))) w
          else .ok obj { w with trace := w.trace ++
            [.tempLine sensor (f32round (f32round ((clamp64 r : ℤ) : ℚ) / 1000))] } := by
  rw [temperatureLine_eq asJson obj (itoa i) (itoa r) w (itoa_no_comma i) (itoa_no_comma r)
    (TrimSpace_temperature _ _ r rfl), atof, atoi_itoa, atoi_itoa]

/-! ## C8: temperature lines -/

/-- C8, as stated, fails: for the line `+GTSENRDTEMP: 1,r` with `r = 10^30` the
reading recorded under `soc_max` is not `r / 1000`: `atoi` saturates `r` to the
largest 64-bit `int`, and the float32 quotient of that by 1000 is at most
`2^54`. -/
theorem temperatureLine_counterexample :
    ¬ (∀ (obj : List (Str × F32)) (i r : Int) (w : World), 1 ≤ i → i ≤ 23 →
        ∃ name, sensors.get? (i - 1).toNat = some name ∧
          temperatureLine true obj
              ("+GTSENRDTEMP: ".toList ++ itoa i ++ ",".toList ++ itoa r) w
            = .ok (mapSet obj name ((r : ℚ) / 1000)) w) := by
  intro h
  obtain ⟨name, hn, he⟩ := h [] 1 (10 ^ 30) ⟨[], [], []⟩ (by norm_num) (by norm_num)
  have hn' : name = "soc_max".toList := by
    have : sensors.get? ((1 : Int) - 1).toNat = some "soc_max".toList := by decide
    rw [this] at hn
    exact (Option.some.inj hn).symm
  have hc : clamp64 (10 ^ 30) = 2 ^ 63 - 1 := by decide
  have hi : clamp64 1 = 1 := by decide
  rw [temperatureLine_itoa, hc, hi] at he
  have hw : wrap64 (1 - 1) = 0 := by decide
  rw [hw] at he
  have hs : sensors.get? (0 : Int).toNat = some "soc_max".toList := by decide
  simp only [lt_self_iff_false, ge_iff_le, false_or, hs, if_true, hn'] at he
  norm_num at he
  simp only [mapSet, List.any_nil, Bool.false_eq_true, if_false, List.nil_append,
    List.cons.injEq, Prod.mk.injEq, true_and, and_true] at he
  have hb := reading_clamped_bound
  norm_num at hb
  rw [he] at hb
  norm_num at hb


theorem f32round_int (z : ℤ) (h : |z| ≤ 2 ^ 24) : f32round (z : ℚ) = z := by
  have := f32round_exact z 0 h (by norm_num)
  simpa using this

theorem reading_small (r : ℤ) (h : |r| ≤ 2 ^ 24) :
    f32round (f32round ((clamp64 r : ℤ) : ℚ) / 1000) = f32round ((r : ℚ) / 1000) := by
  have hc : clamp64 r = r := by
    have := abs_le.1 h
    unfold clamp64
    split_ifs <;> omega
  rw [hc, f32round_int r h]

/-- C8, amended: for every reply line `+GTSENRDTEMP: i,r` with decimal integers
`i` and `r`, if `1 ≤ i ≤ 23` the reading recorded under the `i`-th catalog name
(`soc_max` for 1, `unknown` for 23; the catalog has 23 entries) is the float32
quotient `float32(r') / 1000`, where `r'` is `r` saturated to the 64-bit `int`
range; for `|r| ≤ 2^24` that is `r / 1000` rounded to float32, and raw 25000
gives exactly 25.  If `i < 1` or `i > 23` the line adds no entry under any
name.  In JSON mode the reading is stored in the map under the name (and read
back from it); in text mode it is logged with the name. -/
theorem temperatureLine_decodes (asJson : Bool) (obj : List (Str × F32)) (i r : Int)
    (w : World) :
    (1 ≤ i ∧ i ≤ 23 →
      ∃ name, sensors.get? (i - 1).toNat = some name ∧
        temperatureLine asJson obj
            ("+GTSENRDTEMP: ".toList ++ itoa i ++ ",".toList ++ itoa r) w =
          if asJson then
            .ok (mapSet obj name (f32round (f32round ((clamp64 r : ℤ) : ℚ) / 1000))) w
          else .ok obj { w with trace := w.trace ++
            [.tempLine name (f32round (f32round ((clamp64 r : ℤ) : ℚ) / 1000))] }) ∧
    (i < 1 ∨ 23 < i →
      temperatureLine asJson obj
          ("+GTSENRDTEMP: ".toList ++ itoa i ++ ",".toList ++ itoa r) w =
        if asJson then .ok obj w
        else .ok obj { w with trace := w.trace ++
          [.badIndex (wrap64 (clamp64 i - 1))
            ("+GTSENRDTEMP: ".toList ++ itoa i ++ ",".toList ++ itoa r)] }) ∧
    (|r| ≤ 2 ^ 24 →
      f32round (f32round ((clamp64 r : ℤ) : ℚ) / 1000) = f32round ((r : ℚ) / 1000)) ∧
    f32round (f32round ((clamp64 25000 : ℤ) : ℚ) / 1000) = 25 ∧
    sensors.length = 23 ∧
    sensors.get? 0 = some "soc_max".toList ∧
    sensors.get? 22 = some "unknown".toList ∧
    (∀ name v, mapGet (mapSet obj name v) name = some v) := by
  refine ⟨?_, ?_, reading_small r, ?_, rfl, rfl, rfl, fun name v => mapGet_mapSet obj name v⟩
  · rintro ⟨h1, h2⟩
    have hc : clamp64 i = i := by unfold clamp64; split_ifs <;> omega
    have hw : wrap64 (i - 1) = i - 1 := wrap64_of_range _ (by omega) (by omega)
    have hcond : ¬ (i - 1 < 0 ∨ i - 1 ≥ 23) := by omega
    cases hs : sensors.get? (i - 1).toNat with
    | none =>
      have hlen := List.get?_eq_none.1 hs
      have h23 : sensors.length = 23 := rfl
      omega
    | some name =>
      refine ⟨name, rfl, ?_⟩
      rw [temperatureLine_itoa, hc, hw, if_neg hcond, hs]
  · intro h
    have hcond : wrap64 (clamp64 i - 1) < 0 ∨ wrap64 (clamp64 i - 1) ≥ 23 := by
      unfold wrap64 clamp64
      split_ifs <;> omega
    rw [temperatureLine_itoa, if_pos hcond]
  · rw [reading_small 25000 (by norm_num)]
    have h25 : ((25000 : ℤ) : ℚ) / 1000 = ((25 : ℤ) : ℚ) := by norm_num
    rw [h25, f32round_int 25 (by norm_num)]
    norm_num

theorem temperatureLine_decodes_witness :
    ((1 : Int) ≤ 1 ∧ (1 : Int) ≤ 23) ∧
    ∃ name, sensors.get? ((1 : Int) - 1).toNat = some name ∧
      temperatureLine true [] ("+GTSENRDTEMP: ".toList ++ itoa 1 ++ ",".toList ++ itoa 25000)
          ⟨[], [], []⟩ =
        if true then
          .ok (mapSet [] name (f32round (f32round ((clamp64 25000 : ℤ) : ℚ) / 1000)))
            ⟨[], [], []⟩
        else .ok [] { (⟨[], [], []⟩ : World) with trace := (⟨[], [], []⟩ : World).trace ++
          [.tempLine name (f32round (f32round ((clamp64 25000 : ℤ) : ℚ) / 1000))] } :=
  ⟨by decide, (temperatureLine_decodes true [] 1 25000 ⟨[], [], []⟩).1 (by decide)⟩

theorem natHex_small (n : Nat) (h : n < 16) : natHex n = [hexChar n] := by
  simp [natHex, natHexFuel, h]

theorem fmt02x_byte (b : Nat) (h : b < 256) : fmt02x (b : Int) = hexByte b := by
  have hn : ¬ ((b : Int) < 0) := by omega
  by_cases h16 : b < 16
  · have hz : ((b : Int) < 16) := by omega
    have hd : b / 16 = 0 := by omega
    have hm : b % 16 = b := by omega
    simp only [fmt02x, hn, if_false, hz, if_true, Int.natAbs_ofNat, natHex_small b h16,
      hexByte, hd, hm]
    rfl
  · have hz : ¬ ((b : Int) < 16) := by omega
    obtain ⟨c, rfl⟩ : ∃ c, b = c + 1 := ⟨b - 1, by omega⟩
    have hq : (c + 1) / 16 < 16 := by omega
    simp only [fmt02x, hn, if_false, hz, Int.natAbs_ofNat, hexByte]
    simp [natHex, natHexFuel, h16, hq]

theorem hexVal_hexChar (d : Nat) (h : d < 16) : hexVal (hexChar d) = some d := by
  interval_cases d <;> rfl

theorem hexChar_ne_colon (d : Nat) (h : d < 16) : hexChar d ≠ ':' := by
  interval_cases d <;> decide

theorem hexChar_mem (d : Nat) (h : d < 16) : hexChar d ∈ "0123456789abcdef".toList := by
  interval_cases d <;> decide

theorem hexDecode_hexByte (a b : Nat) (ha : a < 256) (hb : b < 256) :
    hexDecode (hexByte a ++ hexByte b) = some [a, b] := by
  have e1 := hexVal_hexChar (a / 16) (by omega)
  have e2 := hexVal_hexChar (a % 16) (by omega)
  have e3 := hexVal_hexChar (b / 16) (by omega)
  have e4 := hexVal_hexChar (b % 16) (by omega)
  have ea : a / 16 * 16 + a % 16 = a := by omega
  have eb : b / 16 * 16 + b % 16 = b := by omega
  simp [hexByte, hexDecode, e1, e2, e3, e4, ea, eb]

theorem itoa_chars (z : Int) : ∀ c ∈ itoa z, c = '-' ∨ ∃ d, d < 10 ∧ c = digitChar d := by
  intro c hc
  unfold itoa at hc
  split_ifs at hc
  · rcases List.mem_cons.1 hc with h | h
    · exact Or.inl h
    · exact Or.inr (natDigits_digit _ c h)
  · exact Or.inr (natDigits_digit _ c hc)

theorem itoa_no_dot_quote (z : Int) : '.' ∉ itoa z ∧ '"' ∉ itoa z := by
  constructor <;> intro h <;> rcases itoa_chars z _ h with h | ⟨d, hd, he⟩
  · exact absurd h (by decide)
  · interval_cases d <;> exact absurd he (by decide)
  · exact absurd h (by decide)
  · interval_cases d <;> exact absurd he (by decide)

theorem mem_joinWith (sep : Char) (c : Char) : ∀ xs : List Str,
    c ∈ joinWith sep xs → c = sep ∨ ∃ x ∈ xs, c ∈ x
  | [], h => by simp [joinWith] at h
  | [x], h => Or.inr ⟨x, by simp, by simpa [joinWith] using h⟩
  | x :: y :: r, h => by
    rw [joinWith] at h
    rcases List.mem_append.1 h with h | h
    · exact Or.inr ⟨x, by simp, h⟩
    · rcases List.mem_cons.1 h with h | h
      · exact Or.inl h
      · rcases mem_joinWith sep c (y :: r) h with h | ⟨z, hz, hcz⟩
        · exact Or.inl h
        · exact Or.inr ⟨z, List.mem_cons_of_mem _ hz, hcz⟩

theorem Trim_of_not_mem (t : Str) (h : '"' ∉ t) : Trim '"' t = t := by
  apply TrimFunc_id
  · intro c hc
    have hm : c ∈ t := List.mem_of_mem_head? hc
    have : c ≠ '"' := fun e => h (e ▸ hm)
    simpa using this
  · intro c hc
    have hm : c ∈ t := List.mem_of_mem_getLast? hc
    have : c ≠ '"' := fun e => h (e ▸ hm)
    simpa using this


theorem fmt02x_atoi_itoa (b : Nat) (h : b < 256) :
    fmt02x (atoi (itoa (b : Int))) = hexByte b := by
  rw [atoi_itoa_of_range _ (by omega) (by omega), fmt02x_byte b h]

theorem range8 : List.range 8 = [0, 1, 2, 3, 4, 5, 6, 7] := by decide

theorem asIpAddr_dotted (bs : List Nat) (hlen : bs.length = 16) (hb : ∀ b ∈ bs, b < 256) :
    asIpAddr (joinWith '.' (bs.map fun b : Nat => itoa (b : Int))) false
      = joinWith ':' (ipv6Groups bs) ∧
    asIpAddr (joinWith '.' (bs.map fun b : Nat => itoa (b : Int))) true
      = joinWith ':' (ipv6Groups bs) ++ "/64".toList := by
  have hq : '"' ∉ joinWith '.' (bs.map fun b : Nat => itoa (b : Int)) := by
    intro h
    rcases mem_joinWith '.' '"' _ h with h | ⟨x, hx, hc⟩
    · exact absurd h (by decide)
    · obtain ⟨b, _, rfl⟩ := List.mem_map.1 hx
      exact (itoa_no_dot_quote _).2 hc
  have hdot : ∀ f ∈ bs.map (fun b : Nat => itoa (b : Int)), '.' ∉ f := by
    intro f hf
    obtain ⟨b, _, rfl⟩ := List.mem_map.1 hf
    exact (itoa_no_dot_quote _).1
  have htrim := Trim_of_not_mem _ hq
  rcases bs with _ | ⟨b0, _ | ⟨b1, _ | ⟨b2, _ | ⟨b3, _ | ⟨b4, _ | ⟨b5, _ | ⟨b6, _ | ⟨b7,
    _ | ⟨b8, _ | ⟨b9, _ | ⟨b10, _ | ⟨b11, _ | ⟨b12, _ | ⟨b13, _ | ⟨b14, _ | ⟨b15,
    _ | ⟨b16, r⟩⟩⟩⟩⟩⟩⟩⟩⟩⟩⟩⟩⟩⟩⟩⟩⟩ <;>
    simp only [List.length_cons, List.length_nil] at hlen <;> try omega
  have h0 := hb b0 (by simp)
  have h1 := hb b1 (by simp)
  have h2 := hb b2 (by simp)
  have h3 := hb b3 (by simp)
  have h4 := hb b4 (by simp)
  have h5 := hb b5 (by simp)
  have h6 := hb b6 (by simp)
  have h7 := hb b7 (by simp)
  have h8 := hb b8 (by simp)
  have h9 := hb b9 (by simp)
  have h10 := hb b10 (by simp)
  have h11 := hb b11 (by simp)
  have h12 := hb b12 (by simp)
  have h13 := hb b13 (by simp)
  have h14 := hb b14 (by simp)
  have h15 := hb b15 (by simp)
  simp only [List.map_cons, List.map_nil] at hdot htrim ⊢
  have hsp := Split_joinWith '.' _ _ hdot
  simp only [asIpAddr, htrim, hsp, List.length_cons, List.length_nil, ipv6Loop]
  simp [fmt02x_atoi_itoa, h0, h1, h2, h3, h4, h5, h6, h7, h8, h9, h10, h11, h12, h13, h14,
    h15, ipv6Groups, range8, joinWith]


theorem hexDecode_hexByte_append (a : Nat) (ha : a < 256) (rest : Str) :
    hexDecode (hexByte a ++ rest) = (hexDecode rest).map (fun bytes => a :: bytes) := by
  have e1 := hexVal_hexChar (a / 16) (by omega)
  have e2 := hexVal_hexChar (a % 16) (by omega)
  have ea : a / 16 * 16 + a % 16 = a := by omega
  have hs : hexByte a ++ rest = hexChar (a / 16) :: hexChar (a % 16) :: rest := rfl
  rw [hs, hexDecode, e1, e2]
  cases hexDecode rest with
  | none => rfl
  | some bytes => simp only [ea, Option.map_some']

theorem hexByte_chars (a : Nat) (ha : a < 256) :
    ∀ c ∈ hexByte a, c ∈ "0123456789abcdef".toList ∧ c ≠ ':' := by
  intro c hc
  simp only [hexByte, List.mem_cons, List.mem_singleton, List.not_mem_nil, or_false] at hc
  rcases hc with rfl | rfl
  · exact ⟨hexChar_mem _ (by omega), hexChar_ne_colon _ (by omega)⟩
  · exact ⟨hexChar_mem _ (by omega), hexChar_ne_colon _ (by omega)⟩

theorem ipv6Groups_explicit (b0 b1 b2 b3 b4 b5 b6 b7 b8 b9 b10 b11 b12 b13 b14 b15 : Nat) :
    ipv6Groups [b0, b1, b2, b3, b4, b5, b6, b7, b8, b9, b10, b11, b12, b13, b14, b15] =
      [hexByte b0 ++ hexByte b1, hexByte b2 ++ hexByte b3, hexByte b4 ++ hexByte b5,
        hexByte b6 ++ hexByte b7, hexByte b8 ++ hexByte b9, hexByte b10 ++ hexByte b11,
        hexByte b12 ++ hexByte b13, hexByte b14 ++ hexByte b15] := by
  simp [ipv6Groups, range8]

theorem ipv6Groups_spec (bs : List Nat) (hlen : bs.length = 16) (hb : ∀ b ∈ bs, b < 256) :
    (ipv6Groups bs).length = 8 ∧
    (∀ g ∈ ipv6Groups bs, g.length = 4 ∧
      ∀ c ∈ g, c ∈ "0123456789abcdef".toList ∧ c ≠ ':') ∧
    (joinWith ':' (ipv6Groups bs)).length = 39 ∧
    hexDecode (ipv6Groups bs).flatten = some bs ∧
    (joinWith ':' (ipv6Groups bs)).head? ≠ some ':' ∧
    (joinWith ':' (ipv6Groups bs)).getLast? ≠ some ':' := by
  rcases bs with _ | ⟨b0, _ | ⟨b1, _ | ⟨b2, _ | ⟨b3, _ | ⟨b4, _ | ⟨b5, _ | ⟨b6, _ | ⟨b7,
    _ | ⟨b8, _ | ⟨b9, _ | ⟨b10, _ | ⟨b11, _ | ⟨b12, _ | ⟨b13, _ | ⟨b14, _ | ⟨b15,
    _ | ⟨b16, r⟩⟩⟩⟩⟩⟩⟩⟩⟩⟩⟩⟩⟩⟩⟩⟩⟩ <;>
    simp only [List.length_cons, List.length_nil] at hlen <;> try omega
  have hg : ∀ x y, x ∈ [b0, b1, b2, b3, b4, b5, b6, b7, b8, b9, b10, b11, b12, b13, b14, b15] →
      y ∈ [b0, b1, b2, b3, b4, b5, b6, b7, b8, b9, b10, b11, b12, b13, b14, b15] →
      (hexByte x ++ hexByte y).length = 4 ∧
        ∀ c ∈ hexByte x ++ hexByte y, c ∈ "0123456789abcdef".toList ∧ c ≠ ':' := by
    intro x y hx hy
    refine ⟨rfl, fun c hc => ?_⟩
    rcases List.mem_append.1 hc with h | h
    · exact hexByte_chars x (hb x hx) c h
    · exact hexByte_chars y (hb y hy) c h
  have hb0 : b0 < 256 := hb b0 (by simp)
  have c0 := hexChar_ne_colon (b0 / 16) (by omega)
  have c15 := hexChar_ne_colon (b15 % 16) (by omega)
  rw [ipv6Groups_explicit]
  refine ⟨rfl, ?_, rfl, ?_, ?_, ?_⟩
  rotate_left 2
  · simp only [joinWith, hexByte, List.cons_append, List.nil_append, List.head?_cons]
    exact fun h => c0 (Option.some.inj h)
  · simp [joinWith, hexByte, c15]
  · intro g hgm
    simp only [List.mem_cons, List.mem_singleton, List.not_mem_nil, or_false] at hgm
    rcases hgm with rfl | rfl | rfl | rfl | rfl | rfl | rfl | rfl <;>
      exact hg _ _ (by simp) (by simp)
  · simp only [List.flatten, List.append_assoc, List.append_nil]
    rw [hexDecode_hexByte_append b0 (hb _ (by simp)),
      hexDecode_hexByte_append b1 (hb _ (by simp)),
      hexDecode_hexByte_append b2 (hb _ (by simp)),
      hexDecode_hexByte_append b3 (hb _ (by simp)),
      hexDecode_hexByte_append b4 (hb _ (by simp)),
      hexDecode_hexByte_append b5 (hb _ (by simp)),
      hexDecode_hexByte_append b6 (hb _ (by simp)),
      hexDecode_hexByte_append b7 (hb _ (by simp)),
      hexDecode_hexByte_append b8 (hb _ (by simp)),
      hexDecode_hexByte_append b9 (hb _ (by simp)),
      hexDecode_hexByte_append b10 (hb _ (by simp)),
      hexDecode_hexByte_append b11 (hb _ (by simp)),
      hexDecode_hexByte_append b12 (hb _ (by simp)),
      hexDecode_hexByte_append b13 (hb _ (by simp)),
      hexDecode_hexByte_append b14 (hb _ (by simp))]
    have h15 := hexDecode_hexByte_append b15 (hb _ (by simp)) []
    rw [List.append_nil] at h15
    rw [h15]
    rfl


/-! ## C11: the dotted-decimal IPv6 form -/

/-- C11: for every token of 16 dot-separated decimal byte values `b0..b15`
(each 0..255), `asIpAddr token false` is the eight groups of `ipv6Groups`
joined by single colons, the `k`-th group being the two-digit hex of `b(2k)`
followed by the two-digit hex of `b(2k+1)`: splitting the text at the colons
gives exactly these 8 groups, each of 4 lowercase hexadecimal digits; the text
has 39 characters and neither starts nor ends with a colon; reading the groups
back as hex recovers the 16 bytes; and `asIpAddr token true` is that text
followed by `/64`. -/
theorem asIpAddr_ipv6_roundtrip (bs : List Nat) (hlen : bs.length = 16)
    (hb : ∀ b ∈ bs, b < 256) :
    asIpAddr (joinWith '.' (bs.map fun b : Nat => itoa (b : Int))) false
      = joinWith ':' (ipv6Groups bs) ∧
    asIpAddr (joinWith '.' (bs.map fun b : Nat => itoa (b : Int))) true
      = asIpAddr (joinWith '.' (bs.map fun b : Nat => itoa (b : Int))) false
        ++ "/64".toList ∧
    Split ':' (asIpAddr (joinWith '.' (bs.map fun b : Nat => itoa (b : Int))) false)
      = ipv6Groups bs ∧
    (ipv6Groups bs).length = 8 ∧
    (∀ g ∈ ipv6Groups bs, g.length = 4 ∧ ∀ c ∈ g, c ∈ "0123456789abcdef".toList) ∧
    (asIpAddr (joinWith '.' (bs.map fun b : Nat => itoa (b : Int))) false).length = 39 ∧
    (asIpAddr (joinWith '.' (bs.map fun b : Nat => itoa (b : Int))) false).head?
      ≠ some ':' ∧
    (asIpAddr (joinWith '.' (bs.map fun b : Nat => itoa (b : Int))) false).getLast?
      ≠ some ':' ∧
    hexDecode
        (Split ':' (asIpAddr (joinWith '.' (bs.map fun b : Nat => itoa (b : Int))) false)).flatten
      = some bs := by
  obtain ⟨e1, e2⟩ := asIpAddr_dotted bs hlen hb
  obtain ⟨g1, g2, g3, g4, g5, g6⟩ := ipv6Groups_spec bs hlen hb
  have hsplit : Split ':' (joinWith ':' (ipv6Groups bs)) = ipv6Groups bs := by
    cases hG : ipv6Groups bs with
    | nil => rw [hG] at g1; cases g1
    | cons x xs =>
      rw [hG] at g2
      exact Split_joinWith ':' x xs (fun f hf hc => ((g2 f hf).2 ':' hc).2 rfl)
  rw [e1, e2, hsplit]
  exact ⟨rfl, rfl, rfl, g1, fun g hg => ⟨(g2 g hg).1, fun c hc => ((g2 g hg).2 c hc).1⟩,
    g3, g5, g6, g4⟩

theorem asIpAddr_ipv6_roundtrip_witness :
    ([32, 1, 13, 184, 0, 0, 0, 0, 0, 0, 0, 0, 0, 0, 0, 1] : List Nat).length = 16 ∧
    (∀ b ∈ ([32, 1, 13, 184, 0, 0, 0, 0, 0, 0, 0, 0, 0, 0, 0, 1] : List Nat), b < 256) ∧
    asIpAddr "32.1.13.184.0.0.0.0.0.0.0.0.0.0.0.1".toList false
      = "2001:0db8:0000:0000:0000:0000:0000:0001".toList :=
  ⟨by decide, by decide,
    (asIpAddr_ipv6_roundtrip [32, 1, 13, 184, 0, 0, 0, 0, 0, 0, 0, 0, 0, 0, 0, 1]
      (by decide) (by decide)).1⟩

end FM350
